import Mathlib

/-!
Shallow embedding of the strands-metrics synchronization engine
(src/client.rs, src/db.rs, src/aggregates.rs).

Modelling conventions:
* Timestamps are seconds since the Unix epoch (`Nat`).  The program
  persists timestamps as RFC3339 text and compares such text
  lexicographically, which agrees with numeric comparison for uniform
  RFC3339 strings; row timestamp fields are therefore modelled as
  `Option Nat` (`none` models a missing or unparseable text field).
* The checkpoint table `app_state` stores arbitrary text, so its values
  are modelled as `String` together with an executable codec
  (`toRfc3339` / `parseRfc3339`) standing in for chrono's RFC3339
  printing and parsing: printing is injective, parsing inverts printing
  and rejects other strings, which are the properties of the library
  pair that the program relies on.
* `Utc::now()` is modelled by an explicit `now : Nat` parameter, one per
  run.
* SQLite statements become pure functions on an explicit `Db` record;
  `INSERT OR REPLACE` is replace-by-primary-key, `UPDATE ... WHERE`
  is a conditional map over the table.  A statement that names a column
  absent from the table's schema fails at prepare time; the
  `daily_metrics` schema is carried in the state so that this failure
  mode is represented (`colsOk`).
-/

namespace StrandsMetrics

/-! Timestamp text codec (model of chrono RFC3339 printing/parsing). -/

def digitChar : Nat → Char
  | 0 => '0' | 1 => '1' | 2 => '2' | 3 => '3' | 4 => '4'
  | 5 => '5' | 6 => '6' | 7 => '7' | 8 => '8' | _ => '9'

def digitVal (c : Char) : Option Nat :=
  let v := c.toNat
  if 48 ≤ v ∧ v ≤ 57 then some (v - 48) else none

def natDigitsAux : Nat → Nat → List Char
  | 0, _ => []
  | f+1, n => if n < 10 then [digitChar n] else natDigitsAux f (n / 10) ++ [digitChar (n % 10)]

/-- Model of chrono `DateTime.to_rfc3339` on a seconds-since-epoch value. -/
def toRfc3339 (n : Nat) : String := String.mk (natDigitsAux (n+1) n)

def decDigitsAux : List Char → Nat → Option Nat
  | [], acc => some acc
  | c :: cs, acc =>
    match digitVal c with
    | some d => decDigitsAux cs (acc * 10 + d)
    | none => none

/-- Model of chrono `DateTime::parse_from_rfc3339`: inverts `toRfc3339`,
fails on anything else. -/
def parseRfc3339 (s : String) : Option Nat :=
  match s.data with
  | [] => none
  | c :: cs => decDigitsAux (c :: cs) 0

theorem digitVal_digitChar (d : Nat) (h : d < 10) : digitVal (digitChar d) = some d := by
  interval_cases d <;> rfl

theorem decDigitsAux_append (a b : List Char) (acc : Nat) :
    decDigitsAux (a ++ b) acc =
      match decDigitsAux a acc with
      | some m => decDigitsAux b m
      | none => none := by
  induction a generalizing acc with
  | nil => rfl
  | cons c cs ih =>
    simp only [List.cons_append, decDigitsAux]
    cases digitVal c with
    | none => rfl
    | some d => exact ih _

theorem natDigitsAux_spec :
    ∀ f n, 0 < f → n < 10 ^ f →
      ∃ k, natDigitsAux f n ≠ [] ∧
        ∀ acc, decDigitsAux (natDigitsAux f n) acc = some (acc * 10 ^ k + n) := by
  intro f
  induction f with
  | zero => intro n h; omega
  | succ f ih =>
    intro n _ hlt
    by_cases hn : n < 10
    · refine ⟨1, ?_, ?_⟩
      · simp [natDigitsAux, hn]
      · intro acc
        simp [natDigitsAux, hn, decDigitsAux, digitVal_digitChar n hn]
    · have hf : 0 < f := by
        by_contra hf0
        have : f = 0 := by omega
        subst this
        simp at hlt
        omega
      have hdiv : n / 10 < 10 ^ f := by
        have h10 : (10:Nat) ^ (f+1) = 10 ^ f * 10 := by ring
        rw [h10] at hlt
        omega
      obtain ⟨k, hne, hdec⟩ := ih (n / 10) hf hdiv
      refine ⟨k + 1, ?_, ?_⟩
      · simp [natDigitsAux, hn]
      · intro acc
        have hmod : n % 10 < 10 := Nat.mod_lt _ (by norm_num)
        simp only [natDigitsAux, if_neg hn]
        rw [decDigitsAux_append, hdec acc]
        simp [decDigitsAux, digitVal_digitChar _ hmod]
        have : (acc * 10 ^ k + n / 10) * 10 + n % 10 = acc * 10 ^ (k+1) + n := by
          have := Nat.div_add_mod n 10
          ring_nf
          omega
        rw [this]

theorem parse_toRfc3339 (n : Nat) : parseRfc3339 (toRfc3339 n) = some n := by
  have hlt : n < 10 ^ (n + 1) := by
    calc n < n + 1 := Nat.lt_succ_self n
    _ ≤ 10 ^ (n+1) := by
      have h := Nat.lt_pow_self (a := 10) (by norm_num) (n + 1)
      omega
  obtain ⟨k, hne, hdec⟩ := natDigitsAux_spec (n+1) n (Nat.succ_pos n) hlt
  unfold toRfc3339 parseRfc3339
  cases hnd : natDigitsAux (n+1) n with
  | nil => exact absurd hnd hne
  | cons c cs =>
    have := hdec 0
    rw [hnd] at this
    simpa using this

/-! Data model: rows of the SQLite tables created by init_db (src/db.rs). -/

/-- Model of the serialized raw payload stored in the `data` column of
`pull_requests`: the aggregation reads `author_association` back out of it
via `json_extract`, the rest is opaque text. -/
structure RawPayload where
  author_association : Option String
  rest : String
deriving Repr, DecidableEq

/-- Row of the `issues` table. -/
structure IssueRow where
  id : Int
  repo : String
  number : Int
  state : String
  author : String
  title : String
  created_at : Option Nat
  updated_at : Option Nat
  closed_at : Option Nat
  deleted_at : Option Nat
  data : String
deriving Repr, DecidableEq

/-- Row of the `pull_requests` table. -/
structure PrRow where
  id : Int
  repo : String
  number : Int
  state : String
  author : String
  title : String
  created_at : Option Nat
  updated_at : Option Nat
  merged_at : Option Nat
  closed_at : Option Nat
  deleted_at : Option Nat
  data : RawPayload
deriving Repr, DecidableEq

/-- Row of `issue_comments` and of `pr_review_comments` (same shape;
`ref_number` is `issue_number` resp. `pr_number`). -/
structure CommentRow where
  id : Int
  repo : String
  ref_number : Int
  author : String
  created_at : Option Nat
  updated_at : Option Nat
  data : String
deriving Repr, DecidableEq

/-- Row of the `pr_reviews` table. -/
structure ReviewRow where
  id : Int
  repo : String
  pr_number : Int
  state : String
  author : String
  submitted_at : Option Nat
  data : String
deriving Repr, DecidableEq

/-- Row of the `stargazers` table (primary key (repo, user)). -/
structure StarRow where
  repo : String
  user : String
  starred_at : Nat
deriving Repr, DecidableEq

/-- Row of the `commits` table (primary key sha). -/
structure CommitRow where
  sha : String
  repo : String
  author : String
  date : Option Nat
  additions : Int
  deletions : Int
  message : String
deriving Repr, DecidableEq

/-- Row of the `workflow_runs` table. -/
structure WorkflowRow where
  id : Int
  repo : String
  name : String
  head_branch : String
  conclusion : String
  created_at : Option Nat
  updated_at : Option Nat
  duration_ms : Int
deriving Repr, DecidableEq

/-- Row of the `daily_metrics` table: primary key (date, repo) with the
remaining columns held as a column-name/value association list so that the
set of columns actually present (the schema) is part of the state.
`date` is a civil-day index (days since the Unix epoch, as printed by
the %Y-%m-%d format); a `none` value models SQL NULL. -/
structure MetricRow where
  date : Int
  repo : String
  vals : List (String × Option ℚ)
deriving Repr, DecidableEq

/-- The whole SQLite database. `metricsSchema` is the column list of the
`daily_metrics` table actually created, so that UPDATE statements naming
a column outside it fail as they do at prepare time. -/
structure Db where
  appState : List (String × String)
  pullRequests : List PrRow
  issues : List IssueRow
  issueComments : List CommentRow
  prReviews : List ReviewRow
  prReviewComments : List CommentRow
  stargazers : List StarRow
  commits : List CommitRow
  workflowRuns : List WorkflowRow
  metricsSchema : List String
  dailyMetrics : List MetricRow
deriving Repr, DecidableEq

/-- Columns of `daily_metrics` as created by `init_db` in src/db.rs. -/
def initDailyMetricsColumns : List String :=
  ["date", "repo",
   "prs_opened", "prs_merged", "issues_opened", "issues_closed",
   "churn_additions", "churn_deletions",
   "ci_failures", "ci_runs",
   "stars", "open_issues_count",
   "time_to_first_response", "avg_issue_resolution_time", "avg_pr_resolution_time",
   "time_to_merge_internal", "time_to_merge_external"]

/-! app_state key-value store: SELECT by key, INSERT OR REPLACE. -/

def getAppState : List (String × String) → String → Option String
  | [], _ => none
  | p :: rest, k => if p.1 == k then some p.2 else getAppState rest k

def setAppState : List (String × String) → String → String → List (String × String)
  | [], k, v => [(k, v)]
  | p :: rest, k, v => if p.1 == k then (k, v) :: rest else p :: setAppState rest k v

/-! Replace-by-primary-key upserts (INSERT OR REPLACE). -/

def upsertPr (t : List PrRow) (r : PrRow) : List PrRow :=
  if t.any (fun x => x.id == r.id) then t.map (fun x => if x.id == r.id then r else x)
  else t ++ [r]

def upsertIssue (t : List IssueRow) (r : IssueRow) : List IssueRow :=
  if t.any (fun x => x.id == r.id) then t.map (fun x => if x.id == r.id then r else x)
  else t ++ [r]

def upsertComment (t : List CommentRow) (r : CommentRow) : List CommentRow :=
  if t.any (fun x => x.id == r.id) then t.map (fun x => if x.id == r.id then r else x)
  else t ++ [r]

def upsertReview (t : List ReviewRow) (r : ReviewRow) : List ReviewRow :=
  if t.any (fun x => x.id == r.id) then t.map (fun x => if x.id == r.id then r else x)
  else t ++ [r]

def upsertStar (t : List StarRow) (r : StarRow) : List StarRow :=
  if t.any (fun x => x.repo == r.repo && x.user == r.user) then
    t.map (fun x => if x.repo == r.repo && x.user == r.user then r else x)
  else t ++ [r]

def upsertCommit (t : List CommitRow) (r : CommitRow) : List CommitRow :=
  if t.any (fun x => x.sha == r.sha) then t.map (fun x => if x.sha == r.sha then r else x)
  else t ++ [r]

def upsertWorkflow (t : List WorkflowRow) (r : WorkflowRow) : List WorkflowRow :=
  if t.any (fun x => x.id == r.id) then t.map (fun x => if x.id == r.id then r else x)
  else t ++ [r]

/-! Remote side: error type and raw items as the fetch loops read them. -/

/-- Model of `octocrab::Error`: either a GitHub response error carrying a
status code and message, or any other (network/serialization) error. -/
inductive GhError where
  | github (status : Nat) (message : String)
  | other (message : String)
deriving Repr, DecidableEq

def eqIgnoreAsciiCase (a b : String) : Bool := a.toLower == b.toLower

/-- GitHubClient::is_missing_resource from src/client.rs. -/
def is_missing_resource : GhError → Bool
  | .github status msg =>
      status == 404 || status == 410 ||
      eqIgnoreAsciiCase msg "Not Found" || eqIgnoreAsciiCase msg "Not Found."
  | .other _ => false

/-- One page fetch outcome: the page's items, or the fetch error. -/
abbrev Page (α : Type) := Except GhError (List α)

/-- octocrab's typed pull-request state. -/
inductive PrItemState where
  | stOpen
  | stClosed
  | stOther
deriving Repr, DecidableEq

/-- Model of a review list item (octocrab typed review). -/
structure ReviewItem where
  id : Int
  state : Option String
  author : Option String
  submitted_at : Option Nat
  raw : String
deriving Repr, DecidableEq

/-- Model of a pull-request list item (octocrab typed PR), together with
the remote responses the nested sync_reviews call for this PR would see. -/
structure PrItem where
  id : Int
  number : Int
  state : Option PrItemState
  author : Option String
  title : Option String
  created_at : Option Nat
  updated_at : Option Nat
  merged_at : Option Nat
  closed_at : Option Nat
  raw : RawPayload
  reviewPages : List (Page ReviewItem)
deriving Repr

/-- Model of an issue JSON object as read field-by-field in sync_issues
and in the sweep (`none` = field missing or unparseable). -/
structure IssueItem where
  id : Option Int
  number : Option Int
  state : Option String
  author : Option String
  title : Option String
  created_at : Option Nat
  updated_at : Option Nat
  closed_at : Option Nat
  isPr : Bool
  raw : String
deriving Repr, DecidableEq

/-- Model of an issue-comment / review-comment JSON object;
`parentNumber` is the number parsed off the trailing segment of
`issue_url` resp. `pull_request_url` (`none` = that parse failed). -/
structure CommentItem where
  id : Option Int
  author : Option String
  created_at : Option Nat
  updated_at : Option Nat
  parentNumber : Option Int
  raw : String
deriving Repr, DecidableEq

/-- Model of a stargazer entry (struct StarEntry in src/client.rs). -/
structure StarItem where
  starred_at : Option Nat
  user : Option String
deriving Repr, DecidableEq

/-- Model of a commit list item: only its sha is read. -/
structure CommitListItem where
  sha : Option String
deriving Repr, DecidableEq

/-- Model of a per-commit detail response as read in sync_commits. -/
structure CommitDetail where
  author : Option String
  date : Option Nat
  additions : Option Int
  deletions : Option Int
  message : Option String
deriving Repr, DecidableEq

/-- Model of a workflow-run JSON object as read in sync_workflows. -/
structure WorkflowItem where
  id : Option Int
  name : Option String
  head_branch : Option String
  conclusion : Option String
  created_at : Option Nat
  updated_at : Option Nat
deriving Repr, DecidableEq

/-! Sync fetch loops (src/client.rs).  Each loop walks a list of page
outcomes; a page outcome `.error e` models the page fetch failing, which
the source propagates with `?`.  Results are `Db × Option GhError`: the
state reached so far together with the error, if any, because mutations
already executed on the connection persist when an error is returned. -/

def prStateStr : Option PrItemState → String
  | some .stOpen => "open"
  | some .stClosed => "closed"
  | _ => "unknown"

/-- The row written by the upsert in sync_pull_requests. -/
def prRowOf (repo : String) (pr : PrItem) : PrRow :=
  { id := pr.id
    repo := repo
    number := pr.number
    state := prStateStr pr.state
    author := pr.author.getD ""
    title := pr.title.getD ""
    created_at := pr.created_at
    updated_at := pr.updated_at
    merged_at := pr.merged_at
    closed_at := pr.closed_at
    deleted_at := none
    data := pr.raw }

/-- The row written by the upsert in sync_reviews. -/
def reviewRowOf (repo : String) (prNumber : Int) (rv : ReviewItem) : ReviewRow :=
  { id := rv.id
    repo := repo
    pr_number := prNumber
    state := (rv.state.map String.toUpper).getD "UNKNOWN"
    author := rv.author.getD ""
    submitted_at := rv.submitted_at
    data := rv.raw }

/-- GitHubClient::sync_reviews: upsert every review on every page. -/
def sync_reviews (repo : String) (prNumber : Int) :
    List (Page ReviewItem) → Db → Db × Option GhError
  | [], db => (db, none)
  | .error e :: _, db => (db, some e)
  | .ok items :: rest, db =>
      sync_reviews repo prNumber rest
        (items.foldl
          (fun d rv => { d with prReviews := upsertReview d.prReviews (reviewRowOf repo prNumber rv) })
          db)

/-- Item loop of sync_pull_requests: returns the state, the
keep_fetching flag, and the error from a nested sync_reviews call if one
occurred. -/
def processPrItems (repo : String) (since : Nat) :
    List PrItem → Db → Db × Bool × Option GhError
  | [], db => (db, true, none)
  | pr :: rest, db =>
    if (pr.updated_at.map (fun u => decide (u < since))).getD false then (db, false, none)
    else
      let db1 := { db with pullRequests := upsertPr db.pullRequests (prRowOf repo pr) }
      if (pr.updated_at.map (fun u => decide (u ≥ since))).getD false then
        match sync_reviews repo pr.number pr.reviewPages db1 with
        | (db2, some e) => (db2, true, some e)
        | (db2, none) => processPrItems repo since rest db2
      else processPrItems repo since rest db1

/-- GitHubClient::sync_pull_requests: paginate until a PR older than the
watermark is seen, upserting PRs and (for fresh PRs) their reviews. -/
def sync_pull_requests (repo : String) (since : Nat) :
    List (Page PrItem) → Db → Db × Option GhError
  | [], db => (db, none)
  | .error e :: _, db => (db, some e)
  | .ok items :: rest, db =>
      match processPrItems repo since items db with
      | (db2, _, some e) => (db2, some e)
      | (db2, false, none) => (db2, none)
      | (db2, true, none) => sync_pull_requests repo since rest db2

/-- The row written by the upsert in sync_issues. -/
def issueRowOf (repo : String) (it : IssueItem) : IssueRow :=
  { id := it.id.getD 0
    repo := repo
    number := it.number.getD 0
    state := it.state.getD "unknown"
    author := it.author.getD "unknown"
    title := it.title.getD ""
    created_at := it.created_at
    updated_at := it.updated_at
    closed_at := it.closed_at
    deleted_at := none
    data := it.raw }

/-- Item loop of sync_issues: break on an item older than the watermark,
skip items carrying the pull_request marker, upsert the rest. -/
def processIssueItems (repo : String) (since now : Nat) :
    List IssueItem → Db → Db × Bool
  | [], db => (db, true)
  | it :: rest, db =>
    if it.updated_at.getD now < since then (db, false)
    else if it.isPr then processIssueItems repo since now rest db
    else processIssueItems repo since now rest
      { db with issues := upsertIssue db.issues (issueRowOf repo it) }

/-- GitHubClient::sync_issues. -/
def sync_issues (repo : String) (since now : Nat) :
    List (Page IssueItem) → Db → Db × Option GhError
  | [], db => (db, none)
  | .error e :: _, db => (db, some e)
  | .ok items :: rest, db =>
      match processIssueItems repo since now items db with
      | (db2, false) => (db2, none)
      | (db2, true) => sync_issues repo since now rest db2

/-- The row written by the upserts in sync_issue_comments and
sync_pr_comments. -/
def commentRowOf (repo : String) (it : CommentItem) : CommentRow :=
  { id := it.id.getD 0
    repo := repo
    ref_number := it.parentNumber.getD 0
    author := it.author.getD "unknown"
    created_at := it.created_at
    updated_at := it.updated_at
    data := it.raw }

/-- Item loop shared in shape by the two comment sync loops: returns the
rows to upsert (in order) and the keep_fetching flag. -/
def processCommentItems (since now : Nat) :
    List CommentItem → List CommentItem × Bool
  | [] => ([], true)
  | it :: rest =>
    if it.updated_at.getD now < since then ([], false)
    else
      let (tail, keep) := processCommentItems since now rest
      (it :: tail, keep)

/-- GitHubClient::sync_issue_comments. -/
def sync_issue_comments (repo : String) (since now : Nat) :
    List (Page CommentItem) → Db → Db × Option GhError
  | [], db => (db, none)
  | .error e :: _, db => (db, some e)
  | .ok items :: rest, db =>
      match processCommentItems since now items with
      | (keepItems, keep) =>
        let db2 := keepItems.foldl
          (fun d it => { d with issueComments := upsertComment d.issueComments (commentRowOf repo it) }) db
        if keep then sync_issue_comments repo since now rest db2 else (db2, none)

/-- GitHubClient::sync_pr_comments. -/
def sync_pr_comments (repo : String) (since now : Nat) :
    List (Page CommentItem) → Db → Db × Option GhError
  | [], db => (db, none)
  | .error e :: _, db => (db, some e)
  | .ok items :: rest, db =>
      match processCommentItems since now items with
      | (keepItems, keep) =>
        let db2 := keepItems.foldl
          (fun d it => { d with prReviewComments := upsertComment d.prReviewComments (commentRowOf repo it) }) db
        if keep then sync_pr_comments repo since now rest db2 else (db2, none)

/-- One star entry of the page walk of sync_stars: upsert when both
starred_at and user are present, and record the remote user. -/
def starEntryStep (repo : String) (acc : Db × List String) (entry : StarItem) :
    Db × List String :=
  match entry.starred_at, entry.user with
  | some t, some login =>
      ({ acc.1 with stargazers :=
           upsertStar acc.1.stargazers { repo := repo, user := login, starred_at := t } },
       if acc.2.contains login then acc.2 else acc.2 ++ [login])
  | _, _ => acc

/-- Page walk of sync_stars: upsert each entry that has both a
starred_at and a user, collecting the remote user set. -/
def syncStarsPages (repo : String) :
    List (Page StarItem) → List String → Db → (Db × List String) × Option GhError
  | [], users, db => ((db, users), none)
  | .error e :: _, users, db => ((db, users), some e)
  | .ok items :: rest, users, db =>
      let step := items.foldl (starEntryStep repo) (db, users)
      syncStarsPages repo rest step.2 step.1

/-- GitHubClient::sync_stars: full remote pass, then delete local
stargazer rows for this repo whose user is absent remotely. -/
def sync_stars (repo : String) (pages : List (Page StarItem)) (db : Db) :
    Db × Option GhError :=
  match syncStarsPages repo pages [] db with
  | ((db2, _), some e) => (db2, some e)
  | ((db2, users), none) =>
      ({ db2 with stargazers :=
           db2.stargazers.filter (fun s => !(s.repo == repo) || users.contains s.user) },
       none)

/-- The row written by the upsert in sync_commits. -/
def commitRowOf (repo sha : String) (d : CommitDetail) : CommitRow :=
  { sha := sha
    repo := repo
    author := d.author.getD "unknown"
    date := d.date
    additions := d.additions.getD 0
    deletions := d.deletions.getD 0
    message := d.message.getD "" }

/-- The per-page sha set of sync_commits (a HashSet in the source;
modelled as the deduplicated sha list). -/
def pageShas (items : List CommitListItem) : List String :=
  (items.filterMap (fun it => it.sha)).dedup

/-- Sha loop of sync_commits: for each sha not already present, make the
detail call (recorded in `log`) and insert the resulting row. -/
def processShas (repo : String) (details : String → Except GhError CommitDetail) :
    List String → Db → List String → (Db × List String) × Option GhError
  | [], db, log => ((db, log), none)
  | sha :: rest, db, log =>
    if db.commits.any (fun c => c.sha == sha) then
      processShas repo details rest db log
    else
      match details sha with
      | .error e => ((db, log ++ [sha]), some e)
      | .ok d =>
          processShas repo details rest
            { db with commits := upsertCommit db.commits (commitRowOf repo sha d) }
            (log ++ [sha])

/-- GitHubClient::sync_commits.  Also returns the list of shas for which
a per-commit detail call was made, in order. -/
def sync_commits (repo : String) (details : String → Except GhError CommitDetail) :
    List (Page CommitListItem) → Db → List String → (Db × List String) × Option GhError
  | [], db, log => ((db, log), none)
  | .error e :: _, db, log => ((db, log), some e)
  | .ok items :: rest, db, log =>
      match processShas repo details (pageShas items) db log with
      | (r, some e) => (r, some e)
      | ((db2, log2), none) => sync_commits repo details rest db2 log2

/-- The row written by the upsert in sync_workflows; `now` is the parse
fallback for the duration computation. -/
def workflowRowOf (repo : String) (it : WorkflowItem) : WorkflowRow :=
  { id := it.id.getD 0
    repo := repo
    name := it.name.getD ""
    head_branch := it.head_branch.getD ""
    conclusion := it.conclusion.getD "in_progress"
    created_at := it.created_at
    updated_at := it.updated_at
    duration_ms :=
      match it.created_at, it.updated_at with
      | some s, some e => ((e : Int) - (s : Int)) * 1000
      | _, _ => 0 }

/-- GitHubClient::sync_workflows. -/
def sync_workflows (repo : String) :
    List (Page WorkflowItem) → Db → Db × Option GhError
  | [], db => (db, none)
  | .error e :: _, db => (db, some e)
  | .ok items :: rest, db =>
      sync_workflows repo rest
        (items.foldl
          (fun d it => { d with workflowRuns := upsertWorkflow d.workflowRuns (workflowRowOf repo it) })
          db)

/-! Rate governor (GitHubClient::check_limits). -/

/-- check_limits from src/client.rs, given the quota response fields and
the current time (u64 seconds): returns the sleep duration in seconds,
or `none` when no sleep happens.  `reset.saturating_sub(now)` is Nat
subtraction. -/
def check_limits (remaining reset now : Nat) : Option Nat :=
  if remaining < 50 then some (reset - now + 10) else none

/-- The sleep duration as the specification words it: reset timestamp
minus now, plus the fixed 10 second margin, floored at 0. -/
def claimSleepSecs (reset now : Nat) : Int :=
  max ((reset : Int) - (now : Int) + 10) 0

/-! Sync orchestration per repository (GitHubClient::sync_repo). -/

/-- The app_state key for a repository's checkpoint. -/
def syncKey (org repoName : String) : String :=
  "last_sync_" ++ org ++ "_" ++ repoName

/-- The epoch sentinel 1970-01-01T00:00:00Z, in seconds. -/
def epochSentinel : Nat := 0

/-- The watermark sync_repo computes: the stored checkpoint when present
and parseable, the current time when present but unparseable (the inner
unwrap_or(Utc::now())), and the epoch sentinel when the row is absent
(the outer unwrap_or_else). -/
def sync_since (org repoName : String) (now : Nat) (db : Db) : Nat :=
  match getAppState db.appState (syncKey org repoName) with
  | some s => (parseRfc3339 s).getD now
  | none => epochSentinel

/-- All remote responses one sync_repo invocation consumes. -/
structure RemoteRepo where
  prPages : List (Page PrItem)
  issuePages : List (Page IssueItem)
  issueCommentPages : List (Page CommentItem)
  prCommentPages : List (Page CommentItem)
  starPages : List (Page StarItem)
  commitPages : List (Page CommitListItem)
  commitDetails : String → Except GhError CommitDetail
  workflowPages : List (Page WorkflowItem)

/-- Sequencing of fallible statements on the shared connection: an error
stops the run but keeps the mutations already made. -/
def andThenE (r : Db × Option GhError) (f : Db → Db × Option GhError) : Db × Option GhError :=
  match r with
  | (db, none) => f db
  | (db, some e) => (db, some e)

/-- sync_commits as used by sync_repo (the detail-call log dropped). -/
def sync_commits_db (repo : String) (details : String → Except GhError CommitDetail)
    (pages : List (Page CommitListItem)) (db : Db) : Db × Option GhError :=
  match sync_commits repo details pages db [] with
  | ((db2, _), e) => (db2, e)

/-- The seven entity fetch loops of sync_repo, in source order. -/
def sync_loops (repoName : String) (since now : Nat) (remote : RemoteRepo) (db : Db) :
    Db × Option GhError :=
  andThenE (sync_pull_requests repoName since remote.prPages db) (fun db1 =>
  andThenE (sync_issues repoName since now remote.issuePages db1) (fun db2 =>
  andThenE (sync_issue_comments repoName since now remote.issueCommentPages db2) (fun db3 =>
  andThenE (sync_pr_comments repoName since now remote.prCommentPages db3) (fun db4 =>
  andThenE (sync_stars repoName remote.starPages db4) (fun db5 =>
  andThenE (sync_commits_db repoName remote.commitDetails remote.commitPages db5) (fun db6 =>
  sync_workflows repoName remote.workflowPages db6))))))

/-- GitHubClient::sync_repo: read the checkpoint, run the seven loops,
and only on full success write the new checkpoint (INSERT OR REPLACE of
the current time). -/
def sync_repo (org repoName : String) (now : Nat) (remote : RemoteRepo) (db : Db) :
    Db × Option GhError :=
  let since := sync_since org repoName now db
  match sync_loops repoName since now remote db with
  | (db7, none) =>
      ({ db7 with appState := setAppState db7.appState (syncKey org repoName) (toRfc3339 now) },
       none)
  | (db7, some e) => (db7, some e)

/-! Reconciler (GitHubClient::sweep_repo). -/

/-- Collect the remote open-issue number set from the paginated
state=open listing. -/
def collectOpenNumbers : List (Page IssueItem) → List Int → Except GhError (List Int)
  | [], acc => .ok acc
  | .error e :: _, _ => .error e
  | .ok items :: rest, acc =>
      collectOpenNumbers rest (acc ++ items.filterMap (fun it => it.number))

/-- The local open-issue numbers:
state = open, closed_at IS NULL, deleted_at IS NULL. -/
def localOpenNumbers (repo : String) (db : Db) : List Int :=
  (db.issues.filter (fun r =>
    r.repo == repo && r.state == "open" && r.closed_at == none && r.deleted_at == none)).map
    (fun r => r.number)

/-- Per-missing-issue loop of sweep_repo.  `fetchIssue` models the
single-issue GET by number. -/
def sweepLoop (repo : String) (now : Nat)
    (fetchIssue : Int → Except GhError IssueItem) (remote : List Int) :
    List Int → Db → Db × Option GhError
  | [], db => (db, none)
  | n :: rest, db =>
    if remote.contains n then sweepLoop repo now fetchIssue remote rest db
    else
      match fetchIssue n with
      | .ok j =>
          sweepLoop repo now fetchIssue remote rest
            { db with issues := db.issues.map (fun r =>
                if r.repo == repo && r.number == n then
                  { r with state := j.state.getD "closed", closed_at := j.closed_at }
                else r) }
      | .error e =>
          if is_missing_resource e then
            sweepLoop repo now fetchIssue remote rest
              { db with issues := db.issues.map (fun r =>
                  if r.repo == repo && r.number == n then
                    { r with state := "deleted", deleted_at := some now }
                  else r) }
          else (db, some e)

/-- GitHubClient::sweep_repo. -/
def sweep_repo (repo : String) (now : Nat)
    (fetchIssue : Int → Except GhError IssueItem)
    (pages : List (Page IssueItem)) (db : Db) : Db × Option GhError :=
  match collectOpenNumbers pages [] with
  | .error e => (db, some e)
  | .ok remote => sweepLoop repo now fetchIssue remote (localOpenNumbers repo db) db

/-! Aggregation engine (src/aggregates.rs, compute_metrics). -/

/-- Seconds of 2010-01-01T00:00:00Z, the fixed historical epoch used
when no metrics exist yet. -/
def metricsEpochSec : Nat := 1262304000

/-- Civil day index of a timestamp (what date() / the %Y-%m-%d format
yields, compared as ISO text in the source). -/
def dayOfSec (n : Nat) : Int := ((n / 86400 : Nat) : Int)

/-- date(t) = d under SQL three-valued logic: false when t is NULL. -/
def onDay (t : Option Nat) (d : Int) : Bool :=
  match t with
  | some x => dayOfSec x == d
  | none => false

/-- date(t) <= d under SQL three-valued logic. -/
def onOrBeforeDay (t : Option Nat) (d : Int) : Bool :=
  match t with
  | some x => decide (dayOfSec x ≤ d)
  | none => false

/-- date(t) > d under SQL three-valued logic. -/
def afterDay (t : Option Nat) (d : Int) : Bool :=
  match t with
  | some x => decide (d < dayOfSec x)
  | none => false

/-- COALESCE of two nullable timestamps. -/
def coalesceTs (a b : Option Nat) : Option Nat :=
  match a with
  | some x => some x
  | none => b

/-- SQL AVG over the non-NULL values of a selected column: NULL when no
non-NULL value is selected. -/
def sqlAvg (l : List ℚ) : Option ℚ :=
  if l.isEmpty then none else some (l.sum / (l.length : ℚ))

/-- The window start instant (seconds): max(existing daily_metrics.date)
minus 3 days, or the fixed 2010 epoch when no metrics exist. -/
def computeStartSec (db : Db) : Int :=
  match (db.dailyMetrics.map (fun r => r.date)).max? with
  | some d => d * 86400 - 3 * 86400
  | none => (metricsEpochSec : Int)

/-- A row of the temp_response_times temp table. -/
structure RespRow where
  repo : String
  created_date : Int
  hours : ℚ
deriving Repr, DecidableEq

/-- The parent side of the temp-table join: (repo, number, author,
created_at) of every issue and every pull request. -/
def parentsOf (db : Db) : List (String × Int × String × Option Nat) :=
  db.issues.map (fun i => (i.repo, i.number, i.author, i.created_at)) ++
  db.pullRequests.map (fun p => (p.repo, p.number, p.author, p.created_at))

/-- The activity side of the temp-table join: (repo, ref_number, author,
activity_at) of every issue comment, review and review comment. -/
def activitiesOf (db : Db) : List (String × Int × String × Option Nat) :=
  db.issueComments.map (fun c => (c.repo, c.ref_number, c.author, c.created_at)) ++
  db.prReviews.map (fun v => (v.repo, v.pr_number, v.author, v.submitted_at)) ++
  db.prReviewComments.map (fun c => (c.repo, c.ref_number, c.author, c.created_at))

/-- temp_response_times: for each parent, the fractional hours
(julianday difference times 24) from its creation to MIN(activity_at)
over the joined qualifying activities (same repo and number, strictly
later than creation, different author); parents with no qualifying
activity, or NULL creation (the join condition is then unknown), yield
no row.  Grouping is by (repo, number); as in the source this assumes
numbers are not duplicated across the issue/PR union. -/
def tempResponseTimes (db : Db) : List RespRow :=
  (parentsOf db).filterMap (fun p =>
    match p.2.2.2 with
    | none => none
    | some c =>
      let acts : List Nat := (activitiesOf db).filterMap (fun a =>
        match a.2.2.2 with
        | some t =>
            if a.1 == p.1 && a.2.1 == p.2.1 && decide (c < t) && !(a.2.2.1 == p.2.2.1)
            then some t else none
        | none => none)
      match acts.min? with
      | none => none
      | some m =>
          some { repo := p.1, created_date := dayOfSec c,
                 hours := (((m : ℚ) - (c : ℚ)) * 24) / 86400 })

/-- Sequencing of fallible SQL statements in compute_metrics. -/
def andThenS (r : Db × Option String) (f : Db → Db × Option String) : Db × Option String :=
  match r with
  | (db, none) => f db
  | (db, some e) => (db, some e)

/-- Prepare-time column check: the first SET column missing from the
daily_metrics schema makes the statement fail. -/
def colsOk (schema cols : List String) : Option String :=
  match cols.find? (fun c => !(schema.contains c)) with
  | some c => some ("no such column: " ++ c)
  | none => none

/-- SELECT DISTINCT repo over pull_requests, issues, stargazers and
commits: the repositories given a daily_metrics row. -/
def activeRepos (db : Db) : List String :=
  ((db.pullRequests.map (fun p => p.repo)) ++ (db.issues.map (fun i => i.repo)) ++
   (db.stargazers.map (fun s => s.repo)) ++ (db.commits.map (fun c => c.repo))).dedup

/-- A fresh daily_metrics row: every non-key column of the schema at its
DEFAULT 0. -/
def mkMetricRow (schema : List String) (d : Int) (repo : String) : MetricRow :=
  { date := d, repo := repo,
    vals := (schema.filter (fun c => !(c == "date") && !(c == "repo"))).map (fun c => (c, some (0 : ℚ))) }

/-- INSERT OR IGNORE INTO daily_metrics (date, repo) SELECT DISTINCT. -/
def insertMetricRows (d : Int) (db : Db) : Db × Option String :=
  match colsOk db.metricsSchema ["date", "repo"] with
  | some e => (db, some e)
  | none =>
      let newRows := (activeRepos db).filterMap (fun rp =>
        if db.dailyMetrics.any (fun r => r.date == d && r.repo == rp) then none
        else some (mkMetricRow db.metricsSchema d rp))
      ({ db with dailyMetrics := db.dailyMetrics ++ newRows }, none)

/-- SET col = v on one daily_metrics row. -/
def setVal (r : MetricRow) (c : String) (v : Option ℚ) : MetricRow :=
  { r with vals := r.vals.map (fun p => if p.1 == c then (c, v) else p) }

/-- UPDATE daily_metrics SET cols WHERE date = d: fails at prepare time
when a SET column is missing from the schema, otherwise rewrites every
row of that date with `f`. -/
def execMetricUpdate (cols : List String) (f : Db → MetricRow → MetricRow) (d : Int)
    (db : Db) : Db × Option String :=
  match colsOk db.metricsSchema cols with
  | some e => (db, some e)
  | none =>
      ({ db with dailyMetrics := db.dailyMetrics.map (fun r => if r.date == d then f db r else r) },
       none)

/-- UPDATE setting prs_opened / prs_merged / issues_opened /
issues_closed for the row's day. -/
def updCounts (db : Db) (r : MetricRow) : MetricRow :=
  let r1 := setVal r "prs_opened" (some ((db.pullRequests.filter (fun p =>
    p.repo == r.repo && onDay p.created_at r.date)).length : ℚ))
  let r2 := setVal r1 "prs_merged" (some ((db.pullRequests.filter (fun p =>
    p.repo == r.repo && onDay p.merged_at r.date)).length : ℚ))
  let r3 := setVal r2 "issues_opened" (some ((db.issues.filter (fun i =>
    i.repo == r.repo && onDay i.created_at r.date)).length : ℚ))
  setVal r3 "issues_closed" (some ((db.issues.filter (fun i =>
    i.repo == r.repo && onDay i.closed_at r.date)).length : ℚ))

/-- UPDATE setting churn_additions / churn_deletions. -/
def updChurn (db : Db) (r : MetricRow) : MetricRow :=
  let sel := db.commits.filter (fun c => c.repo == r.repo && onDay c.date r.date)
  let r1 := setVal r "churn_additions" (some (((sel.map (fun c => c.additions)).sum : ℚ)))
  setVal r1 "churn_deletions" (some (((sel.map (fun c => c.deletions)).sum : ℚ)))

/-- UPDATE setting ci_failures / ci_runs. -/
def updCi (db : Db) (r : MetricRow) : MetricRow :=
  let r1 := setVal r "ci_failures" (some ((db.workflowRuns.filter (fun w =>
    w.repo == r.repo && w.conclusion == "failure" && onDay w.created_at r.date)).length : ℚ))
  setVal r1 "ci_runs" (some ((db.workflowRuns.filter (fun w =>
    w.repo == r.repo && onDay w.created_at r.date)).length : ℚ))

/-- UPDATE setting the cumulative star count. -/
def updStars (db : Db) (r : MetricRow) : MetricRow :=
  setVal r "stars" (some ((db.stargazers.filter (fun s =>
    s.repo == r.repo && decide (dayOfSec s.starred_at ≤ r.date))).length : ℚ))

/-- Open-as-of-day filter shared by the three open-count updates. -/
def openAsOf (created closed : Option Nat) (d : Int) : Bool :=
  onOrBeforeDay created d && (closed == none || afterDay closed d)

/-- UPDATE setting open_items_count (issues plus PRs). -/
def updOpenItems (db : Db) (r : MetricRow) : MetricRow :=
  setVal r "open_items_count" (some
    (((db.issues.filter (fun i => i.repo == r.repo && openAsOf i.created_at i.closed_at r.date)).length : ℚ) +
     ((db.pullRequests.filter (fun p => p.repo == r.repo && openAsOf p.created_at p.closed_at r.date)).length : ℚ)))

/-- UPDATE setting open_issues_count. -/
def updOpenIssues (db : Db) (r : MetricRow) : MetricRow :=
  setVal r "open_issues_count" (some
    ((db.issues.filter (fun i => i.repo == r.repo && openAsOf i.created_at i.closed_at r.date)).length : ℚ))

/-- UPDATE setting open_prs_count. -/
def updOpenPrs (db : Db) (r : MetricRow) : MetricRow :=
  setVal r "open_prs_count" (some
    ((db.pullRequests.filter (fun p => p.repo == r.repo && openAsOf p.created_at p.closed_at r.date)).length : ℚ))

/-- UPDATE setting time_to_first_response from the temp table. -/
def updResponse (temp : List RespRow) (_db : Db) (r : MetricRow) : MetricRow :=
  setVal r "time_to_first_response"
    (sqlAvg ((temp.filter (fun q => q.repo == r.repo && q.created_date == r.date)).map
      (fun q => q.hours)))

/-- UPDATE setting avg_issue_resolution_time. -/
def updIssueRes (db : Db) (r : MetricRow) : MetricRow :=
  setVal r "avg_issue_resolution_time"
    (sqlAvg (db.issues.filterMap (fun i =>
      if i.repo == r.repo && onDay i.closed_at r.date then
        match i.closed_at, i.created_at with
        | some cl, some cr => some ((((cl : ℚ) - (cr : ℚ)) * 24) / 86400)
        | _, _ => none
      else none)))

/-- UPDATE setting avg_pr_resolution_time. -/
def updPrRes (db : Db) (r : MetricRow) : MetricRow :=
  setVal r "avg_pr_resolution_time"
    (sqlAvg (db.pullRequests.filterMap (fun p =>
      if p.repo == r.repo && !(p.merged_at == none && p.closed_at == none) &&
         onDay (coalesceTs p.merged_at p.closed_at) r.date then
        match coalesceTs p.merged_at p.closed_at, p.created_at with
        | some res, some cr => some ((((res : ℚ) - (cr : ℚ)) * 24) / 86400)
        | _, _ => none
      else none)))

/-- author_association IN ('OWNER','MEMBER','COLLABORATOR'); NULL
(payload without the field) is unknown, hence false. -/
def isInternalAssoc (a : Option String) : Bool :=
  match a with
  | some s => s == "OWNER" || s == "MEMBER" || s == "COLLABORATOR"
  | none => false

/-- author_association NOT IN (...); NULL again yields false. -/
def isExternalAssoc (a : Option String) : Bool :=
  match a with
  | some s => !(s == "OWNER" || s == "MEMBER" || s == "COLLABORATOR")
  | none => false

/-- UPDATE setting time_to_merge_internal. -/
def updMergeInternal (db : Db) (r : MetricRow) : MetricRow :=
  setVal r "time_to_merge_internal"
    (sqlAvg (db.pullRequests.filterMap (fun p =>
      if p.repo == r.repo && onDay p.merged_at r.date && isInternalAssoc p.data.author_association then
        match p.merged_at, p.created_at with
        | some m, some cr => some ((((m : ℚ) - (cr : ℚ)) * 24) / 86400)
        | _, _ => none
      else none)))

/-- UPDATE setting time_to_merge_external. -/
def updMergeExternal (db : Db) (r : MetricRow) : MetricRow :=
  setVal r "time_to_merge_external"
    (sqlAvg (db.pullRequests.filterMap (fun p =>
      if p.repo == r.repo && onDay p.merged_at r.date && isExternalAssoc p.data.author_association then
        match p.merged_at, p.created_at with
        | some m, some cr => some ((((m : ℚ) - (cr : ℚ)) * 24) / 86400)
        | _, _ => none
      else none)))

/-- The twelve UPDATE statements of the day loop, in source order, as
(SET columns, row transform) pairs. -/
def dayStatements (temp : List RespRow) : List (List String × (Db → MetricRow → MetricRow)) :=
  [ (["prs_opened", "prs_merged", "issues_opened", "issues_closed"], updCounts),
    (["churn_additions", "churn_deletions"], updChurn),
    (["ci_failures", "ci_runs"], updCi),
    (["stars"], updStars),
    (["open_items_count"], updOpenItems),
    (["open_issues_count"], updOpenIssues),
    (["open_prs_count"], updOpenPrs),
    (["time_to_first_response"], updResponse temp),
    (["avg_issue_resolution_time"], updIssueRes),
    (["avg_pr_resolution_time"], updPrRes),
    (["time_to_merge_internal"], updMergeInternal),
    (["time_to_merge_external"], updMergeExternal) ]

/-- Every column compute_metrics writes (INSERT key columns plus every
UPDATE SET column). -/
def metricUpdateColumns : List String :=
  ["date", "repo",
   "prs_opened", "prs_merged", "issues_opened", "issues_closed",
   "churn_additions", "churn_deletions",
   "ci_failures", "ci_runs",
   "stars", "open_items_count", "open_issues_count", "open_prs_count",
   "time_to_first_response", "avg_issue_resolution_time", "avg_pr_resolution_time",
   "time_to_merge_internal", "time_to_merge_external"]

/-- Run the UPDATE statements of one day in order. -/
def runUpdates (d : Int) : List (List String × (Db → MetricRow → MetricRow)) → Db → Db × Option String
  | [], db => (db, none)
  | (cols, f) :: rest, db =>
      match colsOk db.metricsSchema cols with
      | some e => (db, some e)
      | none =>
          runUpdates d rest
            { db with dailyMetrics := db.dailyMetrics.map (fun r => if r.date == d then f db r else r) }

/-- One day of the compute_metrics loop: insert the skeleton rows, then
run the twelve UPDATE statements. -/
def metricDayStep (temp : List RespRow) (d : Int) (db : Db) : Db × Option String :=
  andThenS (insertMetricRows d db) (fun db1 => runUpdates d (dayStatements temp) db1)

/-- The day indices visited by `for i in 0..=num_days`. -/
def metricsDays (startSec : Int) (numDays : Int) : List Int :=
  if numDays < 0 then []
  else (List.range (numDays.toNat + 1)).map
    (fun (i : Nat) => Int.fdiv (startSec + (i : Int) * 86400) 86400)

/-- Run the day loop over a list of day indices. -/
def runDays (temp : List RespRow) : List Int → Db → Db × Option String
  | [], db => (db, none)
  | d :: rest, db => andThenS (metricDayStep temp d db) (fun db2 => runDays temp rest db2)

/-- compute_metrics from src/aggregates.rs: detect the dirty window,
delete the daily_metrics rows inside it, build the temp response-time
table once, then recompute each day.  `now` is Utc::now() in seconds. -/
def compute_metrics (db : Db) (now : Nat) : Db × Option String :=
  let startSec := computeStartSec db
  let startDay := Int.fdiv startSec 86400
  let db1 := { db with dailyMetrics := db.dailyMetrics.filter (fun r => decide (r.date < startDay)) }
  let temp := tempResponseTimes db1
  let numDays := Int.tdiv ((now : Int) - startSec) 86400
  runDays temp (metricsDays startSec numDays) db1

/-! Spec-side definition for the response-time claim: the first
qualifying response of an item is the earliest comment, review or
review-comment on it from a different author, strictly after the item's
creation (written from the specification's words, to be compared with
tempResponseTimes). -/

/-- The timestamp of the first qualifying response: the minimum over the
timestamps of issue comments, reviews and review comments on
(repo, num) by an author other than `author`, restricted to those
strictly after the creation instant `c`. -/
def specFirstResponseTs (db : Db) (repo : String) (num : Int) (author : String)
    (c : Nat) : Option Nat :=
  let comments := db.issueComments.filterMap (fun x =>
    if x.repo == repo && x.ref_number == num && !(x.author == author) then x.created_at else none)
  let reviews := db.prReviews.filterMap (fun v =>
    if v.repo == repo && v.pr_number == num && !(v.author == author) then v.submitted_at else none)
  let reviewComments := db.prReviewComments.filterMap (fun x =>
    if x.repo == repo && x.ref_number == num && !(x.author == author) then x.created_at else none)
  ((comments ++ reviews ++ reviewComments).filter (fun t => decide (c < t))).min?

/-- The spec-side first-response latency in fractional hours. -/
def specFirstResponseHours (db : Db) (repo : String) (num : Int) (author : String)
    (c : Nat) : Option ℚ :=
  (specFirstResponseTs db repo num author c).map (fun t => ((t : ℚ) - (c : ℚ)) / 3600)

/-- The raw (non-derived) tables of the database, used to state that the
aggregation loop leaves everything but daily_metrics alone. -/
def rawTables (db : Db) :
    List (String × String) × List PrRow × List IssueRow × List CommentRow ×
    List ReviewRow × List CommentRow × List StarRow × List CommitRow × List WorkflowRow :=
  (db.appState, db.pullRequests, db.issues, db.issueComments, db.prReviews,
   db.prReviewComments, db.stargazers, db.commits, db.workflowRuns)

/-! Concrete databases and remote inputs used by the witnesses. -/

/-- A database with every table empty and the init_db daily_metrics
schema. -/
def emptyDb : Db :=
  { appState := [], pullRequests := [], issues := [], issueComments := [],
    prReviews := [], prReviewComments := [], stargazers := [], commits := [],
    workflowRuns := [], metricsSchema := initDailyMetricsColumns, dailyMetrics := [] }

/-- An open issue by alice, created on day 10 (t = 864000). -/
def sampleIssueRow : IssueRow :=
  { id := 1, repo := "r", number := 1, state := "open", author := "alice", title := "",
    created_at := some 864000, updated_at := none, closed_at := none, deleted_at := none,
    data := "" }

/-- A freshly initialized database (init_db schema) already holding one
mirrored issue: the input on which compute_metrics fails. -/
def c2FailDb : Db := { emptyDb with issues := [sampleIssueRow] }

/-- An issue row in the terminal deleted state. -/
def deletedIssueRow : IssueRow :=
  { id := 1, repo := "r", number := 1, state := "deleted", author := "a", title := "",
    created_at := some 0, updated_at := none, closed_at := none, deleted_at := some 99,
    data := "" }

/-- A remote issue payload with the same id as deletedIssueRow, open
again remotely. -/
def reappearedIssueItem : IssueItem :=
  { id := some 1, number := some 1, state := some "open", author := some "a",
    title := some "t", created_at := some 0, updated_at := some 50, closed_at := none,
    isPr := false, raw := "x" }

/-- The response-time scenario of the specification: an issue by alice
with a same-author comment one hour later and a comment by bob five
hours later. -/
def respScenarioDb : Db :=
  { emptyDb with
    issues := [sampleIssueRow]
    issueComments :=
      [ { id := 1, repo := "r", ref_number := 1, author := "alice",
          created_at := some 867600, updated_at := none, data := "" },
        { id := 2, repo := "r", ref_number := 1, author := "bob",
          created_at := some 882000, updated_at := none, data := "" } ] }

/-- A database whose daily_metrics schema has every column the
aggregation writes, with metric rows through day 14613 and one issue. -/
def fullSchemaDb : Db :=
  { emptyDb with
    metricsSchema := metricUpdateColumns
    issues := [sampleIssueRow]
    dailyMetrics :=
      [ mkMetricRow metricUpdateColumns 14613 "r", mkMetricRow metricUpdateColumns 14603 "r" ] }

/-- Remote inputs for a sync in which every listing is already empty. -/
def quietRemote : RemoteRepo :=
  { prPages := [], issuePages := [], issueCommentPages := [], prCommentPages := [],
    starPages := [], commitPages := [], commitDetails := fun _ => .error (.other "unused"),
    workflowPages := [] }

/-- Remote inputs whose very first pull-request page fetch fails. -/
def failingRemote : RemoteRepo :=
  { quietRemote with prPages := [.error (.other "boom")] }

/-- A closed-issue payload, as returned by a successful single-issue
fetch during the sweep. -/
def closedIssueItem : IssueItem :=
  { id := some 1, number := some 1, state := some "closed", author := some "a",
    title := some "t", created_at := some 0, updated_at := some 50,
    closed_at := some 70, isPr := false, raw := "y" }

/-- A database whose stored checkpoint value is not RFC3339 text. -/
def garbageCheckpointDb : Db :=
  { emptyDb with appState := [("last_sync_o_r", "garbage")] }

/-- A database holding the checkpoint written at time 3. -/
def checkpointAt3Db : Db :=
  { emptyDb with appState := [("last_sync_o_r", toRfc3339 3)] }

/-- A pull-request item last updated at t = 1, i.e. before the
watermark 5 used in the witnesses. -/
def stalePrItem : PrItem :=
  { id := 9, number := 4, state := some .stOpen, author := some "a", title := some "t",
    created_at := some 0, updated_at := some 1, merged_at := none, closed_at := none,
    raw := { author_association := none, rest := "" }, reviewPages := [] }

/-- An issue item last updated at t = 1. -/
def staleIssueItem : IssueItem :=
  { id := some 9, number := some 4, state := some "open", author := some "a",
    title := some "t", created_at := some 0, updated_at := some 1, closed_at := none,
    isPr := false, raw := "" }

/-- A comment item last updated at t = 1. -/
def staleCommentItem : CommentItem :=
  { id := some 9, author := some "a", created_at := some 0, updated_at := some 1,
    parentNumber := some 4, raw := "" }

/-- A second open issue (number 2) by another author. -/
def openIssue2 : IssueRow :=
  { id := 2, repo := "r", number := 2, state := "open", author := "b", title := "",
    created_at := some 0, updated_at := none, closed_at := none, deleted_at := none,
    data := "" }

/-- A database with two locally-open issues, numbers 1 and 2. -/
def sweepDb : Db := { emptyDb with issues := [sampleIssueRow, openIssue2] }

/-- A single-issue fetch that answers number 1 with a closed payload and
everything else with 410 Gone. -/
def sweepFetchMixed : Int → Except GhError IssueItem := fun n =>
  if n == 1 then Except.ok closedIssueItem else Except.error (.github 410 "Gone")

/-- A single-issue fetch that always fails with a server error. -/
def sweepFetchBoom : Int → Except GhError IssueItem := fun _ =>
  Except.error (.other "boom")

/-- Issue 1 as the sweep rewrites it from the closed payload. -/
def c3ClosedRow : IssueRow := { sampleIssueRow with state := "closed", closed_at := some 70 }

/-- Issue 2 as the sweep marks it deleted at time 9. -/
def c3DeletedRow : IssueRow := { openIssue2 with state := "deleted", deleted_at := some 9 }

/-- A commit row already mirrored, sha "a". -/
def existingCommitRow : CommitRow :=
  { sha := "a", repo := "r", author := "x", date := some 5, additions := 1, deletions := 2,
    message := "m" }

/-- A database already holding commit "a". -/
def commitsDb : Db := { emptyDb with commits := [existingCommitRow] }

/-- Two commit listing pages: sha "a" reappears on both pages alongside
the new sha "b". -/
def commitPagesAB : List (Page CommitListItem) :=
  [Except.ok [{ sha := some "a" }, { sha := some "b" }], Except.ok [{ sha := some "a" }]]

/-- A detail endpoint that always answers with a fixed payload. -/
def commitDetailsB : String → Except GhError CommitDetail := fun _ =>
  Except.ok { author := some "y", date := some 6, additions := some 3, deletions := some 4,
              message := some "msg" }

/-! Theorems. -/

theorem getAppState_setAppState_same (st : List (String × String)) (k v : String) :
    getAppState (setAppState st k v) k = some v := by
  induction st with
  | nil => simp [setAppState, getAppState]
  | cons p rest ih =>
    simp only [setAppState]
    by_cases h : p.1 == k
    · simp [getAppState, h]
    · simp [getAppState, h, ih]

/-- C6: the claimed sleep-duration formula (floor applied after adding
the margin) disagrees with the code when now is past the reset time:
with remaining quota 0, reset = 100, now = 105 the code sleeps 10
seconds, the claimed formula yields 5. -/
theorem c6_sleep_formula_counterexample :
    check_limits 0 100 105 = some 10 ∧ claimSleepSecs 100 105 = 5 ∧
    ¬ ((10 : Int) = claimSleepSecs 100 105) := by decide

/-- C6 (amended): check_limits sleeps exactly when the remaining quota
is strictly below 50, and the sleep is (reset − now) floored at 0,
plus the fixed 10-second margin (the floor applies before the margin is
added, so the sleep is never below 10 seconds). -/
theorem c6_check_limits_amended (remaining reset now : Nat) :
    (check_limits remaining reset now = none ↔ 50 ≤ remaining) ∧
    (∀ w, check_limits remaining reset now = some w →
      (w : Int) = max ((reset : Int) - (now : Int)) 0 + 10) := by
  unfold check_limits
  refine ⟨?_, ?_⟩
  · constructor
    · intro hc
      by_cases h : remaining < 50
      · rw [if_pos h] at hc; cases hc
      · omega
    · intro hc
      rw [if_neg (by omega : ¬ remaining < 50)]
  · intro w hw
    by_cases h : remaining < 50
    · simp only [h, if_true, Option.some.injEq] at hw
      rcases Nat.le_total now reset with hle | hle
      · rw [max_eq_left (by omega)]
        omega
      · rw [max_eq_right (by omega)]
        omega
    · simp [h] at hw

/-- C6 witness: at remaining = 40, reset = 100, now = 90 the code
sleeps 20 seconds, matching max(100 − 90, 0) + 10. -/
theorem c6_check_limits_amended_witness :
    ((20 : Nat) : Int) = max ((100 : Int) - (90 : Int)) 0 + 10 :=
  (c6_check_limits_amended 40 100 90).2 20 (by decide)

/-- C2: on a database freshly created by init_db, the open-items UPDATE
of compute_metrics fails, because init_db's daily_metrics table has
neither open_items_count nor open_prs_count although the aggregation
updates both; the claim that every updated column exists is contradicted
by the code itself. -/
theorem c2_fresh_schema_update_fails :
    (compute_metrics c2FailDb metricsEpochSec).2 = some "no such column: open_items_count" ∧
    "open_items_count" ∈ metricUpdateColumns ∧ ¬ "open_items_count" ∈ initDailyMetricsColumns ∧
    "open_prs_count" ∈ metricUpdateColumns ∧ ¬ "open_prs_count" ∈ initDailyMetricsColumns := by
  refine ⟨by decide, by decide, by decide, by decide, by decide⟩

/-- C10: when the checkpoint row exists but its value does not parse as
RFC3339 the watermark sync_repo computes is the current time, and the
epoch sentinel is used exactly in the row-absent case. -/
theorem c10_watermark_fallback (org repoName : String) (now : Nat) (db : Db) :
    (∀ s, getAppState db.appState (syncKey org repoName) = some s →
       parseRfc3339 s = none → sync_since org repoName now db = now) ∧
    (getAppState db.appState (syncKey org repoName) = none →
       sync_since org repoName now db = epochSentinel) := by
  unfold sync_since
  constructor
  · intro s hs hp
    rw [hs]
    simp [hp]
  · intro h
    simp [h]

/-- C10 witness: a stored value "garbage" makes the watermark the
current time 7; an absent row yields the epoch sentinel. -/
theorem c10_watermark_fallback_witness :
    sync_since "o" "r" 7 garbageCheckpointDb = 7 ∧
    sync_since "o" "r" 7 emptyDb = epochSentinel :=
  ⟨(c10_watermark_fallback "o" "r" 7 garbageCheckpointDb).1 "garbage" (by decide) (by decide),
   (c10_watermark_fallback "o" "r" 7 emptyDb).2 (by decide)⟩

theorem processIssueItems_append (repo : String) (since now : Nat)
    (pre l : List IssueItem) (db : Db) :
    processIssueItems repo since now (pre ++ l) db =
      match processIssueItems repo since now pre db with
      | (d, true) => processIssueItems repo since now l d
      | (d, false) => (d, false) := by
  induction pre generalizing db with
  | nil => simp [processIssueItems]
  | cons it rest ih =>
    simp only [List.cons_append, processIssueItems]
    by_cases h1 : it.updated_at.getD now < since
    · simp [h1]
    · by_cases h2 : it.isPr = true
      · simp [h1, h2, ih]
      · simp [h1, h2, ih]

theorem processPrItems_append (repo : String) (since : Nat)
    (pre l : List PrItem) (db : Db) :
    processPrItems repo since (pre ++ l) db =
      match processPrItems repo since pre db with
      | (d, true, none) => processPrItems repo since l d
      | r => r := by
  induction pre generalizing db with
  | nil => simp [processPrItems]
  | cons pr rest ih =>
    simp only [List.cons_append, processPrItems]
    by_cases h1 : (pr.updated_at.map (fun u => decide (u < since))).getD false = true
    · simp [h1]
    · by_cases h2 : (pr.updated_at.map (fun u => decide (u ≥ since))).getD false = true
      · simp only [h1, h2, Bool.false_eq_true, if_false, if_true]
        cases hr : sync_reviews repo pr.number pr.reviewPages
          { db with pullRequests := upsertPr db.pullRequests (prRowOf repo pr) } with
        | mk db2 oe =>
          cases oe with
          | none => simp [ih]
          | some e => simp
      · simp [h1, h2, ih]

theorem processCommentItems_append (since now : Nat) (pre l : List CommentItem) :
    processCommentItems since now (pre ++ l) =
      match processCommentItems since now pre with
      | (rows, true) =>
          match processCommentItems since now l with
          | (rows2, keep) => (rows ++ rows2, keep)
      | (rows, false) => (rows, false) := by
  induction pre with
  | nil =>
    cases hl : processCommentItems since now l with
    | mk rows2 keep => simp [processCommentItems, hl]
  | cons it rest ih =>
    simp only [List.cons_append, processCommentItems]
    by_cases h1 : it.updated_at.getD now < since
    · simp [h1]
    · simp only [h1, if_false]
      simp only [List.append_eq]
      rw [ih]
      cases hr : processCommentItems since now rest with
      | mk rows keep =>
        cases keep with
        | true =>
          cases hl : processCommentItems since now l with
          | mk rows2 keep2 => simp
        | false => simp

/-- C7: in each updated-descending loop (pull requests, issues, issue
comments, PR review comments), an item older than the watermark stops
the loop: neither it, nor the rest of its page, nor any further page is
processed, and the state is exactly the one produced by the items before
it. -/
theorem c7_early_termination (repo : String) (since now : Nat) :
    (∀ (pre : List PrItem) (bad : PrItem) (post : List PrItem)
        (restPages : List (Page PrItem)) (db db1 : Db) (u : Nat),
      processPrItems repo since pre db = (db1, true, none) →
      bad.updated_at = some u → u < since →
      sync_pull_requests repo since (Except.ok (pre ++ bad :: post) :: restPages) db =
        (db1, none)) ∧
    (∀ (pre : List IssueItem) (bad : IssueItem) (post : List IssueItem)
        (restPages : List (Page IssueItem)) (db db1 : Db),
      processIssueItems repo since now pre db = (db1, true) →
      bad.updated_at.getD now < since →
      sync_issues repo since now (Except.ok (pre ++ bad :: post) :: restPages) db =
        (db1, none)) ∧
    (∀ (pre : List CommentItem) (bad : CommentItem) (post : List CommentItem)
        (restPages : List (Page CommentItem)) (db : Db) (rows : List CommentItem),
      processCommentItems since now pre = (rows, true) →
      bad.updated_at.getD now < since →
      sync_issue_comments repo since now (Except.ok (pre ++ bad :: post) :: restPages) db =
        (rows.foldl (fun d it =>
          { d with issueComments := upsertComment d.issueComments (commentRowOf repo it) }) db,
         none)) ∧
    (∀ (pre : List CommentItem) (bad : CommentItem) (post : List CommentItem)
        (restPages : List (Page CommentItem)) (db : Db) (rows : List CommentItem),
      processCommentItems since now pre = (rows, true) →
      bad.updated_at.getD now < since →
      sync_pr_comments repo since now (Except.ok (pre ++ bad :: post) :: restPages) db =
        (rows.foldl (fun d it =>
          { d with prReviewComments := upsertComment d.prReviewComments (commentRowOf repo it) }) db,
         none)) := by
  refine ⟨?_, ?_, ?_, ?_⟩
  · intro pre bad post restPages db db1 u hpre hu hlt
    have hbad : processPrItems repo since (pre ++ bad :: post) db = (db1, false, none) := by
      rw [processPrItems_append, hpre]
      simp [processPrItems, hu, hlt]
    simp [sync_pull_requests, hbad]
  · intro pre bad post restPages db db1 hpre hlt
    have hbad : processIssueItems repo since now (pre ++ bad :: post) db = (db1, false) := by
      rw [processIssueItems_append, hpre]
      simp [processIssueItems, hlt]
    simp [sync_issues, hbad]
  · intro pre bad post restPages db rows hpre hlt
    have hbad : processCommentItems since now (pre ++ bad :: post) = (rows, false) := by
      rw [processCommentItems_append, hpre]
      simp [processCommentItems, hlt]
    simp [sync_issue_comments, hbad]
  · intro pre bad post restPages db rows hpre hlt
    have hbad : processCommentItems since now (pre ++ bad :: post) = (rows, false) := by
      rw [processCommentItems_append, hpre]
      simp [processCommentItems, hlt]
    simp [sync_pr_comments, hbad]

/-- C7 witness: with watermark 5 and a first item last updated at 1, all
four loops stop on the first page, ignore a following (failing) page,
and upsert nothing. -/
theorem c7_early_termination_witness :
    sync_pull_requests "r" 5 [Except.ok [stalePrItem], Except.error (.other "later")] emptyDb =
      (emptyDb, none) ∧
    sync_issues "r" 5 9 [Except.ok [staleIssueItem], Except.error (.other "later")] emptyDb =
      (emptyDb, none) ∧
    sync_issue_comments "r" 5 9 [Except.ok [staleCommentItem], Except.error (.other "later")] emptyDb =
      (emptyDb, none) ∧
    sync_pr_comments "r" 5 9 [Except.ok [staleCommentItem], Except.error (.other "later")] emptyDb =
      (emptyDb, none) := by
  have h := c7_early_termination "r" 5 9
  refine ⟨?_, ?_, ?_, ?_⟩
  · exact h.1 [] stalePrItem [] [Except.error (.other "later")] emptyDb emptyDb 1 rfl rfl
      (by decide)
  · exact h.2.1 [] staleIssueItem [] [Except.error (.other "later")] emptyDb emptyDb rfl
      (by decide)
  · exact h.2.2.1 [] staleCommentItem [] [Except.error (.other "later")] emptyDb [] rfl
      (by decide)
  · exact h.2.2.2 [] staleCommentItem [] [Except.error (.other "later")] emptyDb [] rfl
      (by decide)

/-- C4: the claim fails as stated: a sync whose remote responses contain
the deleted issue again (same id, state open) replaces the whole row,
setting state back to open and clearing deleted_at, because the upsert
in sync_issues writes no deleted_at column. -/
theorem c4_sync_reverts_deleted_counterexample :
    (sync_issues "r" 0 100 [Except.ok [reappearedIssueItem]]
      { emptyDb with issues := [deletedIssueRow] }).2 = none ∧
    ((sync_issues "r" 0 100 [Except.ok [reappearedIssueItem]]
      { emptyDb with issues := [deletedIssueRow] }).1.issues.map
      (fun r => (r.state, r.deleted_at))) = [("open", none)] := by decide

/-! Preservation lemmas: which tables each loop leaves alone. -/

theorem foldl_preserve {σ α β : Type} (proj : σ → β) (step : σ → α → σ)
    (h : ∀ d x, proj (step d x) = proj d) :
    ∀ (items : List α) (db : σ), proj (items.foldl step db) = proj db := by
  intro items
  induction items with
  | nil => intro db; rfl
  | cons x rest ih => intro db; rw [List.foldl_cons, ih, h]

theorem issues_sync_reviews (repo : String) (num : Int) :
    ∀ (pages : List (Page ReviewItem)) (db : Db),
      ((sync_reviews repo num pages db).1).issues = db.issues := by
  intro pages
  induction pages with
  | nil => intro db; rfl
  | cons p rest ih =>
    intro db
    cases p with
    | error e => rfl
    | ok items =>
      simp only [sync_reviews]
      rw [ih]
      exact foldl_preserve (fun d => d.issues)
        (fun d rv => { d with prReviews := upsertReview d.prReviews (reviewRowOf repo num rv) })
        (fun d x => rfl) items db

theorem issues_processPrItems (repo : String) (since : Nat) :
    ∀ (items : List PrItem) (db : Db),
      ((processPrItems repo since items db).1).issues = db.issues := by
  intro items
  induction items with
  | nil => intro db; rfl
  | cons pr rest ih =>
    intro db
    simp only [processPrItems]
    by_cases h1 : (pr.updated_at.map (fun u => decide (u < since))).getD false = true
    · simp [h1]
    · by_cases h2 : (pr.updated_at.map (fun u => decide (u ≥ since))).getD false = true
      · simp only [h1, h2, Bool.false_eq_true, if_false, if_true]
        cases hr : sync_reviews repo pr.number pr.reviewPages
          { db with pullRequests := upsertPr db.pullRequests (prRowOf repo pr) } with
        | mk db2 oe =>
          have hrev := issues_sync_reviews repo pr.number pr.reviewPages
            { db with pullRequests := upsertPr db.pullRequests (prRowOf repo pr) }
          rw [hr] at hrev
          cases oe with
          | none => simp only []; rw [ih, hrev]
          | some e => simpa using hrev
      · simp only [h1, h2, Bool.false_eq_true, if_false]
        rw [ih]

theorem issues_sync_pull_requests (repo : String) (since : Nat) :
    ∀ (pages : List (Page PrItem)) (db : Db),
      ((sync_pull_requests repo since pages db).1).issues = db.issues := by
  intro pages
  induction pages with
  | nil => intro db; rfl
  | cons p rest ih =>
    intro db
    cases p with
    | error e => rfl
    | ok items =>
      simp only [sync_pull_requests]
      cases hp : processPrItems repo since items db with
      | mk db2 r =>
        have hpr := issues_processPrItems repo since items db
        rw [hp] at hpr
        cases r with
        | mk keep oe =>
          cases oe with
          | some e => simpa using hpr
          | none => cases keep with
            | false => simpa using hpr
            | true => simp only []; rw [ih, hpr]

theorem issues_sync_issue_comments (repo : String) (since now : Nat) :
    ∀ (pages : List (Page CommentItem)) (db : Db),
      ((sync_issue_comments repo since now pages db).1).issues = db.issues := by
  intro pages
  induction pages with
  | nil => intro db; rfl
  | cons p rest ih =>
    intro db
    cases p with
    | error e => rfl
    | ok items =>
      simp only [sync_issue_comments]
      cases hp : processCommentItems since now items with
      | mk rows keep =>
        have hfold := foldl_preserve (fun d => d.issues)
          (fun d it => { d with issueComments := upsertComment d.issueComments (commentRowOf repo it) })
          (fun d x => rfl) rows db
        cases keep with
        | false => simpa using hfold
        | true => simp only [if_true]; rw [ih, hfold]

theorem issues_sync_pr_comments (repo : String) (since now : Nat) :
    ∀ (pages : List (Page CommentItem)) (db : Db),
      ((sync_pr_comments repo since now pages db).1).issues = db.issues := by
  intro pages
  induction pages with
  | nil => intro db; rfl
  | cons p rest ih =>
    intro db
    cases p with
    | error e => rfl
    | ok items =>
      simp only [sync_pr_comments]
      cases hp : processCommentItems since now items with
      | mk rows keep =>
        have hfold := foldl_preserve (fun d => d.issues)
          (fun d it => { d with prReviewComments := upsertComment d.prReviewComments (commentRowOf repo it) })
          (fun d x => rfl) rows db
        cases keep with
        | false => simpa using hfold
        | true => simp only [if_true]; rw [ih, hfold]

theorem issues_syncStarsPages (repo : String) :
    ∀ (pages : List (Page StarItem)) (users : List String) (db : Db),
      (((syncStarsPages repo pages users db).1).1).issues = db.issues := by
  intro pages
  induction pages with
  | nil => intro users db; rfl
  | cons p rest ih =>
    intro users db
    cases p with
    | error e => rfl
    | ok items =>
      simp only [syncStarsPages]
      rw [ih]
      exact foldl_preserve (fun s => s.1.issues) (starEntryStep repo)
        (fun d x => by
          unfold starEntryStep
          cases x.starred_at <;> cases x.user <;> rfl) items (db, users)

theorem issues_sync_stars (repo : String) (pages : List (Page StarItem)) (db : Db) :
    ((sync_stars repo pages db).1).issues = db.issues := by
  unfold sync_stars
  cases hs : syncStarsPages repo pages [] db with
  | mk r oe =>
    have h := issues_syncStarsPages repo pages [] db
    rw [hs] at h
    cases r with
    | mk db2 users =>
      cases oe with
      | some e => simpa using h
      | none => simpa using h

theorem issues_processShas (repo : String) (details : String → Except GhError CommitDetail) :
    ∀ (shas : List String) (db : Db) (log : List String),
      (((processShas repo details shas db log).1).1).issues = db.issues := by
  intro shas
  induction shas with
  | nil => intro db log; rfl
  | cons sha rest ih =>
    intro db log
    simp only [processShas]
    by_cases h : db.commits.any (fun c => c.sha == sha) = true
    · simp only [h, if_true]; exact ih db log
    · simp only [h, Bool.false_eq_true, if_false]
      cases details sha with
      | error e => rfl
      | ok d => exact ih _ _

theorem issues_sync_commits (repo : String) (details : String → Except GhError CommitDetail) :
    ∀ (pages : List (Page CommitListItem)) (db : Db) (log : List String),
      (((sync_commits repo details pages db log).1).1).issues = db.issues := by
  intro pages
  induction pages with
  | nil => intro db log; rfl
  | cons p rest ih =>
    intro db log
    cases p with
    | error e => rfl
    | ok items =>
      simp only [sync_commits]
      cases hp : processShas repo details (pageShas items) db log with
      | mk r oe =>
        have h := issues_processShas repo details (pageShas items) db log
        rw [hp] at h
        cases r with
        | mk db2 log2 =>
          cases oe with
          | some e => simpa using h
          | none => simp only []; rw [ih, h]

theorem issues_sync_workflows (repo : String) :
    ∀ (pages : List (Page WorkflowItem)) (db : Db),
      ((sync_workflows repo pages db).1).issues = db.issues := by
  intro pages
  induction pages with
  | nil => intro db; rfl
  | cons p rest ih =>
    intro db
    cases p with
    | error e => rfl
    | ok items =>
      simp only [sync_workflows]
      rw [ih]
      exact foldl_preserve (fun d => d.issues)
        (fun d it => { d with workflowRuns := upsertWorkflow d.workflowRuns (workflowRowOf repo it) })
        (fun d x => rfl) items db

theorem upsertIssue_mem (t : List IssueRow) (r i : IssueRow)
    (h : ¬ r.id = i.id) (hi : i ∈ t) : i ∈ upsertIssue t r := by
  unfold upsertIssue
  by_cases ha : t.any (fun x => x.id == r.id) = true
  · simp only [ha, if_true]
    have hfi : (fun x => if x.id == r.id then r else x) i = i := by
      have : (i.id == r.id) = false := by
        simp only [beq_eq_false_iff_ne]
        intro hc
        exact h hc.symm
      simp [this]
    have := List.mem_map_of_mem (fun x => if x.id == r.id then r else x) hi
    rwa [hfi] at this
  · simp only [ha, Bool.false_eq_true, if_false]
    exact List.mem_append_left _ hi

theorem processIssueItems_preserves_row (repo : String) (since now : Nat) (i : IssueRow) :
    ∀ (items : List IssueItem) (db : Db),
      i ∈ db.issues →
      (∀ it ∈ items, ¬ (it.id.getD 0 = i.id)) →
      i ∈ ((processIssueItems repo since now items db).1).issues := by
  intro items
  induction items with
  | nil => intro db hi _; exact hi
  | cons it rest ih =>
    intro db hi hids
    simp only [processIssueItems]
    by_cases h1 : it.updated_at.getD now < since
    · simp only [h1, if_true]; exact hi
    · by_cases h2 : it.isPr = true
      · simp only [h1, h2, if_false, if_true]
        exact ih db hi (fun x hx => hids x (List.mem_cons_of_mem _ hx))
      · simp only [h1, h2, Bool.false_eq_true, if_false]
        refine ih _ ?_ (fun x hx => hids x (List.mem_cons_of_mem _ hx))
        exact upsertIssue_mem db.issues (issueRowOf repo it) i
          (hids it (List.mem_cons_self _ _)) hi

theorem sync_issues_preserves_row (repo : String) (since now : Nat) (i : IssueRow) :
    ∀ (pages : List (Page IssueItem)) (db : Db),
      i ∈ db.issues →
      (∀ p ∈ pages, ∀ l, p = Except.ok l → ∀ it ∈ l, ¬ (it.id.getD 0 = i.id)) →
      i ∈ ((sync_issues repo since now pages db).1).issues := by
  intro pages
  induction pages with
  | nil => intro db hi _; exact hi
  | cons p rest ih =>
    intro db hi hids
    cases p with
    | error e => exact hi
    | ok items =>
      simp only [sync_issues]
      cases hp : processIssueItems repo since now items db with
      | mk db2 keep =>
        have h2 : i ∈ db2.issues := by
          have := processIssueItems_preserves_row repo since now i items db hi
            (hids (Except.ok items) (List.mem_cons_self _ _) items rfl)
          rwa [hp] at this
        cases keep with
        | false => exact h2
        | true =>
          exact ih db2 h2 (fun q hq => hids q (List.mem_cons_of_mem _ hq))

theorem sweepLoop_preserves_row (repo : String) (now : Nat)
    (fetchIssue : Int → Except GhError IssueItem) (remote : List Int) (i : IssueRow) :
    ∀ (nums : List Int) (db : Db),
      i ∈ db.issues →
      (∀ n ∈ nums, ¬ (i.repo = repo ∧ i.number = n)) →
      i ∈ ((sweepLoop repo now fetchIssue remote nums db).1).issues := by
  intro nums
  induction nums with
  | nil => intro db hi _; exact hi
  | cons n rest ih =>
    intro db hi hnums
    have hcond : ∀ (f : IssueRow → IssueRow),
        i ∈ (db.issues.map (fun r => if r.repo == repo && r.number == n then f r else r)) := by
      intro f
      have hfi : (fun r => if r.repo == repo && r.number == n then f r else r) i = i := by
        have : (i.repo == repo && i.number == n) = false := by
          by_cases hr : i.repo = repo
          · have hn : ¬ i.number = n := fun hc => hnums n (List.mem_cons_self _ _) ⟨hr, hc⟩
            simp [hn]
          · simp [hr]
        simp [this]
      have := List.mem_map_of_mem (fun r => if r.repo == repo && r.number == n then f r else r) hi
      rwa [hfi] at this
    simp only [sweepLoop]
    by_cases hc : remote.contains n = true
    · simp only [hc, if_true]
      exact ih db hi (fun m hm => hnums m (List.mem_cons_of_mem _ hm))
    · simp only [hc, Bool.false_eq_true, if_false]
      cases fetchIssue n with
      | ok j =>
        exact ih _ (hcond _) (fun m hm => hnums m (List.mem_cons_of_mem _ hm))
      | error e =>
        by_cases hm : is_missing_resource e = true
        · simp only [hm, if_true]
          exact ih _ (hcond _) (fun m hm2 => hnums m (List.mem_cons_of_mem _ hm2))
        · simp only [hm, Bool.false_eq_true, if_false]
          exact hi

/-- C4 (amended): a row in the terminal deleted state is preserved, as
that exact row, by every sweep (over a table without duplicate
(repo, number) keys, its open-set query cannot select the deleted row)
and by every sync whose remote issue listings never contain an item with
the deleted row's id; the counterexample shows the id-free condition
cannot be dropped, because the full-row replace of sync_issues writes no
deleted_at column. -/
theorem c4_deleted_terminal_amended (i : IssueRow) (hstate : i.state = "deleted") :
    (∀ (repo : String) (now : Nat) (fetchIssue : Int → Except GhError IssueItem)
        (pages : List (Page IssueItem)) (db : Db),
      i ∈ db.issues →
      (db.issues.map (fun r => (r.repo, r.number))).Nodup →
      i ∈ ((sweep_repo repo now fetchIssue pages db).1).issues) ∧
    (∀ (org repoName : String) (now : Nat) (remote : RemoteRepo) (db : Db),
      i ∈ db.issues →
      (∀ p ∈ remote.issuePages, ∀ l, p = Except.ok l → ∀ it ∈ l, ¬ (it.id.getD 0 = i.id)) →
      i ∈ ((sync_repo org repoName now remote db).1).issues) := by
  constructor
  · intro repo now fetchIssue pages db hi hnodup
    unfold sweep_repo
    cases collectOpenNumbers pages [] with
    | error e => exact hi
    | ok remote =>
      refine sweepLoop_preserves_row repo now fetchIssue remote i
        (localOpenNumbers repo db) db hi ?_
      intro n hn hc
      unfold localOpenNumbers at hn
      rw [List.mem_map] at hn
      obtain ⟨j, hj, hjn⟩ := hn
      rw [List.mem_filter] at hj
      obtain ⟨hjmem, hjcond⟩ := hj
      have hjrepo : j.repo = repo := by
        have := hjcond
        simp only [Bool.and_eq_true, beq_iff_eq] at this
        exact this.1.1.1
      have hjstate : j.state = "open" := by
        simp only [Bool.and_eq_true, beq_iff_eq] at hjcond
        exact hjcond.1.1.2
      have hkey : (fun r => (r.repo, r.number)) i = (fun r => (r.repo, r.number)) j := by
        simp only []
        rw [hc.1, hjrepo, hc.2, hjn]
      have := List.inj_on_of_nodup_map hnodup hi hjmem hkey
      rw [this, hjstate] at hstate
      exact absurd hstate (by decide)
  · intro org repoName now remote db hi hids
    have hstep : i ∈ ((sync_loops repoName (sync_since org repoName now db) now remote db).1).issues := by
      unfold sync_loops
      set since := sync_since org repoName now db
      cases h1 : sync_pull_requests repoName since remote.prPages db with
      | mk d1 e1 =>
        have hi1 : i ∈ d1.issues := by
          have := issues_sync_pull_requests repoName since remote.prPages db
          rw [h1] at this
          simp only at this
          rw [this]
          exact hi
        cases e1 with
        | some e => exact hi1
        | none =>
          simp only [andThenE]
          cases h2 : sync_issues repoName since now remote.issuePages d1 with
          | mk d2 e2 =>
            have hi2 : i ∈ d2.issues := by
              have := sync_issues_preserves_row repoName since now i
                remote.issuePages d1 hi1 hids
              rwa [h2] at this
            cases e2 with
            | some e => exact hi2
            | none =>
              simp only [andThenE]
              cases h3 : sync_issue_comments repoName since now remote.issueCommentPages d2 with
              | mk d3 e3 =>
                have hi3 : i ∈ d3.issues := by
                  have := issues_sync_issue_comments repoName since now remote.issueCommentPages d2
                  rw [h3] at this
                  simp only at this
                  rw [this]; exact hi2
                cases e3 with
                | some e => exact hi3
                | none =>
                  simp only [andThenE]
                  cases h4 : sync_pr_comments repoName since now remote.prCommentPages d3 with
                  | mk d4 e4 =>
                    have hi4 : i ∈ d4.issues := by
                      have := issues_sync_pr_comments repoName since now remote.prCommentPages d3
                      rw [h4] at this
                      simp only at this
                      rw [this]; exact hi3
                    cases e4 with
                    | some e => exact hi4
                    | none =>
                      simp only [andThenE]
                      cases h5 : sync_stars repoName remote.starPages d4 with
                      | mk d5 e5 =>
                        have hi5 : i ∈ d5.issues := by
                          have := issues_sync_stars repoName remote.starPages d4
                          rw [h5] at this
                          simp only at this
                          rw [this]; exact hi4
                        cases e5 with
                        | some e => exact hi5
                        | none =>
                          simp only [andThenE]
                          cases h6 : sync_commits_db repoName remote.commitDetails remote.commitPages d5 with
                          | mk d6 e6 =>
                            have hi6 : i ∈ d6.issues := by
                              unfold sync_commits_db at h6
                              cases hc : sync_commits repoName remote.commitDetails remote.commitPages d5 [] with
                              | mk r oe2 =>
                                have := issues_sync_commits repoName remote.commitDetails remote.commitPages d5 []
                                rw [hc] at this
                                rw [hc] at h6
                                cases r with
                                | mk dd ll =>
                                  simp only at h6
                                  cases h6
                                  simpa using (by rw [this]; exact hi5)
                            cases e6 with
                            | some e => exact hi6
                            | none =>
                              simp only [andThenE]
                              have := issues_sync_workflows repoName remote.workflowPages d6
                              rw [this]
                              exact hi6
    simp only [sync_repo]
    cases hl : sync_loops repoName (sync_since org repoName now db) now remote db with
    | mk db7 oe =>
      rw [hl] at hstep
      cases oe with
      | none => simpa using hstep
      | some e => simpa using hstep

/-- C4 witness: a deleted row survives a sweep in which the remote open
set is empty and the single-issue fetch answers 404, and survives a full
sync whose listings are all empty. -/
theorem c4_deleted_terminal_amended_witness :
    deletedIssueRow ∈ ((sweep_repo "r" 9 (fun _ => Except.error (.github 404 "Not Found"))
      [Except.ok []] { emptyDb with issues := [deletedIssueRow] }).1).issues ∧
    deletedIssueRow ∈ ((sync_repo "o" "r" 9 quietRemote
      { emptyDb with issues := [deletedIssueRow] }).1).issues := by
  constructor
  · exact (c4_deleted_terminal_amended deletedIssueRow rfl).1 "r" 9
      (fun _ => Except.error (.github 404 "Not Found")) [Except.ok []]
      { emptyDb with issues := [deletedIssueRow] } (by decide) (by decide)
  · exact (c4_deleted_terminal_amended deletedIssueRow rfl).2 "o" "r" 9 quietRemote
      { emptyDb with issues := [deletedIssueRow] } (by decide)
      (by intro p hp; simp [quietRemote] at hp)

theorem appState_sync_reviews (repo : String) (num : Int) :
    ∀ (pages : List (Page ReviewItem)) (db : Db),
      ((sync_reviews repo num pages db).1).appState = db.appState := by
  intro pages
  induction pages with
  | nil => intro db; rfl
  | cons p rest ih =>
    intro db
    cases p with
    | error e => rfl
    | ok items =>
      simp only [sync_reviews]
      rw [ih]
      exact foldl_preserve (fun d => d.appState)
        (fun d rv => { d with prReviews := upsertReview d.prReviews (reviewRowOf repo num rv) })
        (fun d x => rfl) items db

theorem appState_processPrItems (repo : String) (since : Nat) :
    ∀ (items : List PrItem) (db : Db),
      ((processPrItems repo since items db).1).appState = db.appState := by
  intro items
  induction items with
  | nil => intro db; rfl
  | cons pr rest ih =>
    intro db
    simp only [processPrItems]
    by_cases h1 : (pr.updated_at.map (fun u => decide (u < since))).getD false = true
    · simp [h1]
    · by_cases h2 : (pr.updated_at.map (fun u => decide (u ≥ since))).getD false = true
      · simp only [h1, h2, Bool.false_eq_true, if_false, if_true]
        cases hr : sync_reviews repo pr.number pr.reviewPages
          { db with pullRequests := upsertPr db.pullRequests (prRowOf repo pr) } with
        | mk db2 oe =>
          have hrev := appState_sync_reviews repo pr.number pr.reviewPages
            { db with pullRequests := upsertPr db.pullRequests (prRowOf repo pr) }
          rw [hr] at hrev
          cases oe with
          | none => simp only []; rw [ih, hrev]
          | some e => simpa using hrev
      · simp only [h1, h2, Bool.false_eq_true, if_false]
        rw [ih]

theorem appState_sync_pull_requests (repo : String) (since : Nat) :
    ∀ (pages : List (Page PrItem)) (db : Db),
      ((sync_pull_requests repo since pages db).1).appState = db.appState := by
  intro pages
  induction pages with
  | nil => intro db; rfl
  | cons p rest ih =>
    intro db
    cases p with
    | error e => rfl
    | ok items =>
      simp only [sync_pull_requests]
      cases hp : processPrItems repo since items db with
      | mk db2 r =>
        have hpr := appState_processPrItems repo since items db
        rw [hp] at hpr
        cases r with
        | mk keep oe =>
          cases oe with
          | some e => simpa using hpr
          | none => cases keep with
            | false => simpa using hpr
            | true => simp only []; rw [ih, hpr]

theorem appState_processIssueItems (repo : String) (since now : Nat) :
    ∀ (items : List IssueItem) (db : Db),
      ((processIssueItems repo since now items db).1).appState = db.appState := by
  intro items
  induction items with
  | nil => intro db; rfl
  | cons it rest ih =>
    intro db
    simp only [processIssueItems]
    by_cases h1 : it.updated_at.getD now < since
    · simp [h1]
    · by_cases h2 : it.isPr = true
      · simp [h1, h2, ih]
      · simp [h1, h2, ih]

theorem appState_sync_issues (repo : String) (since now : Nat) :
    ∀ (pages : List (Page IssueItem)) (db : Db),
      ((sync_issues repo since now pages db).1).appState = db.appState := by
  intro pages
  induction pages with
  | nil => intro db; rfl
  | cons p rest ih =>
    intro db
    cases p with
    | error e => rfl
    | ok items =>
      simp only [sync_issues]
      cases hp : processIssueItems repo since now items db with
      | mk db2 keep =>
        have hpr := appState_processIssueItems repo since now items db
        rw [hp] at hpr
        cases keep with
        | false => simpa using hpr
        | true => simp only []; rw [ih, hpr]

theorem appState_sync_issue_comments (repo : String) (since now : Nat) :
    ∀ (pages : List (Page CommentItem)) (db : Db),
      ((sync_issue_comments repo since now pages db).1).appState = db.appState := by
  intro pages
  induction pages with
  | nil => intro db; rfl
  | cons p rest ih =>
    intro db
    cases p with
    | error e => rfl
    | ok items =>
      simp only [sync_issue_comments]
      cases hp : processCommentItems since now items with
      | mk rows keep =>
        have hfold := foldl_preserve (fun d => d.appState)
          (fun d it => { d with issueComments := upsertComment d.issueComments (commentRowOf repo it) })
          (fun d x => rfl) rows db
        cases keep with
        | false => simpa using hfold
        | true => simp only [if_true]; rw [ih, hfold]

theorem appState_sync_pr_comments (repo : String) (since now : Nat) :
    ∀ (pages : List (Page CommentItem)) (db : Db),
      ((sync_pr_comments repo since now pages db).1).appState = db.appState := by
  intro pages
  induction pages with
  | nil => intro db; rfl
  | cons p rest ih =>
    intro db
    cases p with
    | error e => rfl
    | ok items =>
      simp only [sync_pr_comments]
      cases hp : processCommentItems since now items with
      | mk rows keep =>
        have hfold := foldl_preserve (fun d => d.appState)
          (fun d it => { d with prReviewComments := upsertComment d.prReviewComments (commentRowOf repo it) })
          (fun d x => rfl) rows db
        cases keep with
        | false => simpa using hfold
        | true => simp only [if_true]; rw [ih, hfold]

theorem appState_syncStarsPages (repo : String) :
    ∀ (pages : List (Page StarItem)) (users : List String) (db : Db),
      (((syncStarsPages repo pages users db).1).1).appState = db.appState := by
  intro pages
  induction pages with
  | nil => intro users db; rfl
  | cons p rest ih =>
    intro users db
    cases p with
    | error e => rfl
    | ok items =>
      simp only [syncStarsPages]
      rw [ih]
      exact foldl_preserve (fun s => s.1.appState) (starEntryStep repo)
        (fun d x => by
          unfold starEntryStep
          cases x.starred_at <;> cases x.user <;> rfl) items (db, users)

theorem appState_sync_stars (repo : String) (pages : List (Page StarItem)) (db : Db) :
    ((sync_stars repo pages db).1).appState = db.appState := by
  unfold sync_stars
  cases hs : syncStarsPages repo pages [] db with
  | mk r oe =>
    have h := appState_syncStarsPages repo pages [] db
    rw [hs] at h
    cases r with
    | mk db2 users =>
      cases oe with
      | some e => simpa using h
      | none => simpa using h

theorem appState_processShas (repo : String) (details : String → Except GhError CommitDetail) :
    ∀ (shas : List String) (db : Db) (log : List String),
      (((processShas repo details shas db log).1).1).appState = db.appState := by
  intro shas
  induction shas with
  | nil => intro db log; rfl
  | cons sha rest ih =>
    intro db log
    simp only [processShas]
    by_cases h : db.commits.any (fun c => c.sha == sha) = true
    · simp only [h, if_true]; exact ih db log
    · simp only [h, Bool.false_eq_true, if_false]
      cases details sha with
      | error e => rfl
      | ok d => exact ih _ _

theorem appState_sync_commits (repo : String) (details : String → Except GhError CommitDetail) :
    ∀ (pages : List (Page CommitListItem)) (db : Db) (log : List String),
      (((sync_commits repo details pages db log).1).1).appState = db.appState := by
  intro pages
  induction pages with
  | nil => intro db log; rfl
  | cons p rest ih =>
    intro db log
    cases p with
    | error e => rfl
    | ok items =>
      simp only [sync_commits]
      cases hp : processShas repo details (pageShas items) db log with
      | mk r oe =>
        have h := appState_processShas repo details (pageShas items) db log
        rw [hp] at h
        cases r with
        | mk db2 log2 =>
          cases oe with
          | some e => simpa using h
          | none => simp only []; rw [ih, h]

theorem appState_sync_workflows (repo : String) :
    ∀ (pages : List (Page WorkflowItem)) (db : Db),
      ((sync_workflows repo pages db).1).appState = db.appState := by
  intro pages
  induction pages with
  | nil => intro db; rfl
  | cons p rest ih =>
    intro db
    cases p with
    | error e => rfl
    | ok items =>
      simp only [sync_workflows]
      rw [ih]
      exact foldl_preserve (fun d => d.appState)
        (fun d it => { d with workflowRuns := upsertWorkflow d.workflowRuns (workflowRowOf repo it) })
        (fun d x => rfl) items db

theorem appState_sync_loops (repoName : String) (since now : Nat)
    (remote : RemoteRepo) (db : Db) :
    ((sync_loops repoName since now remote db).1).appState = db.appState := by
  unfold sync_loops
  cases h1 : sync_pull_requests repoName since remote.prPages db with
  | mk d1 e1 =>
    have ha1 := appState_sync_pull_requests repoName since remote.prPages db
    rw [h1] at ha1
    simp only at ha1
    cases e1 with
    | some e => exact ha1
    | none =>
      simp only [andThenE]
      cases h2 : sync_issues repoName since now remote.issuePages d1 with
      | mk d2 e2 =>
        have ha2 := appState_sync_issues repoName since now remote.issuePages d1
        rw [h2] at ha2
        simp only at ha2
        rw [ha1] at ha2
        cases e2 with
        | some e => exact ha2
        | none =>
          simp only [andThenE]
          cases h3 : sync_issue_comments repoName since now remote.issueCommentPages d2 with
          | mk d3 e3 =>
            have ha3 := appState_sync_issue_comments repoName since now remote.issueCommentPages d2
            rw [h3] at ha3
            simp only at ha3
            rw [ha2] at ha3
            cases e3 with
            | some e => exact ha3
            | none =>
              simp only [andThenE]
              cases h4 : sync_pr_comments repoName since now remote.prCommentPages d3 with
              | mk d4 e4 =>
                have ha4 := appState_sync_pr_comments repoName since now remote.prCommentPages d3
                rw [h4] at ha4
                simp only at ha4
                rw [ha3] at ha4
                cases e4 with
                | some e => exact ha4
                | none =>
                  simp only [andThenE]
                  cases h5 : sync_stars repoName remote.starPages d4 with
                  | mk d5 e5 =>
                    have ha5 := appState_sync_stars repoName remote.starPages d4
                    rw [h5] at ha5
                    simp only at ha5
                    rw [ha4] at ha5
                    cases e5 with
                    | some e => exact ha5
                    | none =>
                      simp only [andThenE]
                      cases h6 : sync_commits_db repoName remote.commitDetails remote.commitPages d5 with
                      | mk d6 e6 =>
                        have ha6 : d6.appState = db.appState := by
                          unfold sync_commits_db at h6
                          cases hc : sync_commits repoName remote.commitDetails remote.commitPages d5 [] with
                          | mk r oe2 =>
                            have := appState_sync_commits repoName remote.commitDetails remote.commitPages d5 []
                            rw [hc] at this
                            rw [hc] at h6
                            cases r with
                            | mk dd ll =>
                              simp only at h6 this
                              cases h6
                              rw [this, ha5]
                        cases e6 with
                        | some e => exact ha6
                        | none =>
                          simp only [andThenE]
                          have ha7 := appState_sync_workflows repoName remote.workflowPages d6
                          rw [ha7, ha6]

/-- C1: the checkpoint is written only when all seven entity fetch loops
succeed: on any error sync_repo surfaces that error and the stored
checkpoint value is unchanged; on success the stored value becomes the
current time, which is no earlier than any previously stored, parseable
checkpoint taken at an earlier or equal clock reading. -/
theorem c1_checkpoint_commit (org repoName : String) (now : Nat) (remote : RemoteRepo)
    (db db' : Db) (oe : Option GhError)
    (h : sync_repo org repoName now remote db = (db', oe)) :
    (∀ e, oe = some e →
       getAppState db'.appState (syncKey org repoName) =
         getAppState db.appState (syncKey org repoName)) ∧
    (oe = none →
       getAppState db'.appState (syncKey org repoName) = some (toRfc3339 now) ∧
       ∀ s prev, getAppState db.appState (syncKey org repoName) = some s →
         parseRfc3339 s = some prev → prev ≤ now →
         ∃ tNew, parseRfc3339 (toRfc3339 now) = some tNew ∧ prev ≤ tNew) := by
  have hpres := appState_sync_loops repoName (sync_since org repoName now db) now remote db
  simp only [sync_repo] at h
  cases hl : sync_loops repoName (sync_since org repoName now db) now remote db with
  | mk db7 oe7 =>
    rw [hl] at h hpres
    simp only at hpres
    cases oe7 with
    | none =>
      simp only [Prod.mk.injEq] at h
      obtain ⟨hdb, hoe⟩ := h
      subst hdb
      subst hoe
      refine ⟨?_, ?_⟩
      · intro e he; cases he
      · intro _
        refine ⟨getAppState_setAppState_same _ _ _, ?_⟩
        intro s prev _ _ hle
        exact ⟨now, parse_toRfc3339 now, hle⟩
    | some e0 =>
      simp only [Prod.mk.injEq] at h
      obtain ⟨hdb, hoe⟩ := h
      subst hdb
      subst hoe
      refine ⟨?_, ?_⟩
      · intro e _
        rw [hpres]
      · intro hno
        exact absurd hno (by simp)

/-- C1 witness: with a stored checkpoint written at time 3, a failing
first page leaves it untouched and surfaces the error, while a fully
successful pass at time 9 overwrites it with time 9, which parses back
to 9 with 3 ≤ 9. -/
theorem c1_checkpoint_commit_witness :
    getAppState ((sync_repo "o" "r" 9 failingRemote checkpointAt3Db).1).appState
      (syncKey "o" "r") = getAppState checkpointAt3Db.appState (syncKey "o" "r") ∧
    (getAppState ((sync_repo "o" "r" 9 quietRemote checkpointAt3Db).1).appState
      (syncKey "o" "r") = some (toRfc3339 9) ∧
     ∃ tNew, parseRfc3339 (toRfc3339 9) = some tNew ∧ 3 ≤ tNew) := by
  constructor
  · exact (c1_checkpoint_commit "o" "r" 9 failingRemote checkpointAt3Db
      (sync_repo "o" "r" 9 failingRemote checkpointAt3Db).1
      (sync_repo "o" "r" 9 failingRemote checkpointAt3Db).2 rfl).1
      (GhError.other "boom") (by decide)
  · have h := (c1_checkpoint_commit "o" "r" 9 quietRemote checkpointAt3Db
      (sync_repo "o" "r" 9 quietRemote checkpointAt3Db).1
      (sync_repo "o" "r" 9 quietRemote checkpointAt3Db).2 rfl).2 (by decide)
    exact ⟨h.1, h.2 (toRfc3339 3) 3 (by decide) (by decide) (by decide)⟩

theorem mapKeyUpdate_prop_other (repo : String) (n n2 : Int) (hne : ¬ n2 = n)
    (Q : IssueRow → Prop) (f : IssueRow → IssueRow)
    (hf : ∀ r, (f r).repo = r.repo ∧ (f r).number = r.number)
    (l : List IssueRow) (hQ : ∀ r ∈ l, r.repo = repo → r.number = n → Q r) :
    ∀ r ∈ l.map (fun r => if r.repo == repo && r.number == n2 then f r else r),
      r.repo = repo → r.number = n → Q r := by
  intro r' hr' hrepo hnum
  rw [List.mem_map] at hr'
  obtain ⟨r, hr, hfr⟩ := hr'
  by_cases hc : (r.repo == repo && r.number == n2) = true
  · exfalso
    rw [if_pos hc] at hfr
    have h2 : r.number = n2 := by
      simp only [Bool.and_eq_true, beq_iff_eq] at hc
      exact hc.2
    have h3 : r'.number = r.number := by rw [← hfr]; exact (hf r).2
    exact hne (by rw [← h2, ← h3, hnum])
  · rw [if_neg hc] at hfr
    subst hfr
    exact hQ r hr hrepo hnum

theorem mapKeyUpdate_prop_self (repo : String) (n : Int)
    (Q : IssueRow → Prop) (f : IssueRow → IssueRow)
    (hsat : ∀ r, Q (f r))
    (l : List IssueRow) :
    ∀ r ∈ l.map (fun r => if r.repo == repo && r.number == n then f r else r),
      r.repo = repo → r.number = n → Q r := by
  intro r' hr' hrepo hnum
  rw [List.mem_map] at hr'
  obtain ⟨r, hr, hfr⟩ := hr'
  by_cases hc : (r.repo == repo && r.number == n) = true
  · rw [if_pos hc] at hfr
    subst hfr
    exact hsat r
  · exfalso
    rw [if_neg hc] at hfr
    subst hfr
    apply hc
    simp [hrepo, hnum]

theorem sweepLoop_preserves_key_prop (repo : String) (now : Nat)
    (fetchIssue : Int → Except GhError IssueItem) (remote : List Int)
    (n : Int) (Q : IssueRow → Prop) :
    ∀ (nums : List Int) (db : Db), ¬ n ∈ nums →
      (∀ r ∈ db.issues, r.repo = repo → r.number = n → Q r) →
      ∀ r ∈ ((sweepLoop repo now fetchIssue remote nums db).1).issues,
        r.repo = repo → r.number = n → Q r := by
  intro nums
  induction nums with
  | nil => intro db _ hQ; exact hQ
  | cons m rest ih =>
    intro db hnmem hQ
    have hmn : ¬ m = n := fun hc => hnmem (by rw [hc]; exact List.mem_cons_self _ _)
    have hnrest : ¬ n ∈ rest := fun hc => hnmem (List.mem_cons_of_mem _ hc)
    simp only [sweepLoop]
    by_cases hc : remote.contains m = true
    · simp only [hc, if_true]
      exact ih db hnrest hQ
    · simp only [hc, Bool.false_eq_true, if_false]
      cases hfm : fetchIssue m with
      | ok j =>
        refine ih _ hnrest ?_
        exact mapKeyUpdate_prop_other repo n m hmn Q
          (fun r => { r with state := j.state.getD "closed", closed_at := j.closed_at })
          (fun r => ⟨rfl, rfl⟩) db.issues hQ
      | error e =>
        by_cases hm : is_missing_resource e = true
        · simp only [hm, if_true]
          refine ih _ hnrest ?_
          exact mapKeyUpdate_prop_other repo n m hmn Q
            (fun r => { r with state := "deleted", deleted_at := some now })
            (fun r => ⟨rfl, rfl⟩) db.issues hQ
        · simp only [hm, Bool.false_eq_true, if_false]
          exact hQ

theorem sweepLoop_result (repo : String) (now : Nat)
    (fetchIssue : Int → Except GhError IssueItem) (remote : List Int) :
    ∀ (nums : List Int) (db db' : Db), nums.Nodup →
      sweepLoop repo now fetchIssue remote nums db = (db', none) →
      ∀ n ∈ nums, remote.contains n = false →
        (∀ j, fetchIssue n = Except.ok j →
          ∀ r ∈ db'.issues, r.repo = repo → r.number = n →
            r.state = j.state.getD "closed" ∧ r.closed_at = j.closed_at) ∧
        (∀ e, fetchIssue n = Except.error e → is_missing_resource e = true →
          ∀ r ∈ db'.issues, r.repo = repo → r.number = n →
            r.state = "deleted" ∧ r.deleted_at = some now) := by
  intro nums
  induction nums with
  | nil => intro db db' _ _ n hn; cases hn
  | cons m rest ih =>
    intro db db' hnodup hrun n hn hnc
    rw [List.nodup_cons] at hnodup
    obtain ⟨hmrest, hrestnodup⟩ := hnodup
    simp only [sweepLoop] at hrun
    rcases List.mem_cons.mp hn with rfl | hnrest
    · simp only [hnc, Bool.false_eq_true, if_false] at hrun
      cases hf : fetchIssue n with
      | ok j =>
        simp only [hf] at hrun
        constructor
        · intro j' hj'
          have hjj : j = j' := Except.ok.inj hj'
          subst hjj
          have hbase := mapKeyUpdate_prop_self repo n
            (fun r => r.state = j.state.getD "closed" ∧ r.closed_at = j.closed_at)
            (fun r => { r with state := j.state.getD "closed", closed_at := j.closed_at })
            (fun r => ⟨rfl, rfl⟩) db.issues
          have hpre := sweepLoop_preserves_key_prop repo now fetchIssue remote n
            (fun r => r.state = j.state.getD "closed" ∧ r.closed_at = j.closed_at)
            rest { db with issues := db.issues.map (fun r =>
              if r.repo == repo && r.number == n then
                { r with state := j.state.getD "closed", closed_at := j.closed_at }
              else r) } hmrest hbase
          rw [hrun] at hpre
          exact hpre
        · intro e he
          cases he
      | error e0 =>
        simp only [hf] at hrun
        by_cases hm : is_missing_resource e0 = true
        · simp only [hm, if_true] at hrun
          constructor
          · intro j hj
            cases hj
          · intro e he _
            have he0 : e0 = e := Except.error.inj he
            subst he0
            have hbase := mapKeyUpdate_prop_self repo n
              (fun r => r.state = "deleted" ∧ r.deleted_at = some now)
              (fun r => { r with state := "deleted", deleted_at := some now })
              (fun r => ⟨rfl, rfl⟩) db.issues
            have hpre := sweepLoop_preserves_key_prop repo now fetchIssue remote n
              (fun r => r.state = "deleted" ∧ r.deleted_at = some now)
              rest { db with issues := db.issues.map (fun r =>
                if r.repo == repo && r.number == n then
                  { r with state := "deleted", deleted_at := some now }
                else r) } hmrest hbase
            rw [hrun] at hpre
            exact hpre
        · simp only [hm, Bool.false_eq_true, if_false, Prod.mk.injEq] at hrun
          exact absurd hrun.2 (by simp)
    · by_cases hc : remote.contains m = true
      · simp only [hc, if_true] at hrun
        exact ih db db' hrestnodup hrun n hnrest hnc
      · simp only [hc, Bool.false_eq_true, if_false] at hrun
        cases hf : fetchIssue m with
        | ok j =>
          simp only [hf] at hrun
          exact ih _ db' hrestnodup hrun n hnrest hnc
        | error e0 =>
          simp only [hf] at hrun
          by_cases hm : is_missing_resource e0 = true
          · simp only [hm, if_true] at hrun
            exact ih _ db' hrestnodup hrun n hnrest hnc
          · simp only [hm, Bool.false_eq_true, if_false, Prod.mk.injEq] at hrun
            exact absurd hrun.2 (by simp)

theorem sweepLoop_abort (repo : String) (now : Nat)
    (fetchIssue : Int → Except GhError IssueItem) (remote : List Int) :
    ∀ (pre : List Int) (n : Int) (post : List Int) (db : Db) (e : GhError),
      (∀ m ∈ pre, remote.contains m = true ∨ (∃ j, fetchIssue m = Except.ok j) ∨
         (∃ e2, fetchIssue m = Except.error e2 ∧ is_missing_resource e2 = true)) →
      remote.contains n = false → fetchIssue n = Except.error e →
      is_missing_resource e = false →
      sweepLoop repo now fetchIssue remote (pre ++ n :: post) db =
        ((sweepLoop repo now fetchIssue remote pre db).1, some e) := by
  intro pre
  induction pre with
  | nil =>
    intro n post db e _ hnc hf hm
    simp only [List.nil_append, sweepLoop, hnc, Bool.false_eq_true, if_false, hf, hm]
  | cons m rest ih =>
    intro n post db e hpre hnc hf hm
    have hm1 := hpre m (List.mem_cons_self _ _)
    have hrest : ∀ x ∈ rest, remote.contains x = true ∨ (∃ j, fetchIssue x = Except.ok j) ∨
        (∃ e2, fetchIssue x = Except.error e2 ∧ is_missing_resource e2 = true) :=
      fun x hx => hpre x (List.mem_cons_of_mem _ hx)
    simp only [List.cons_append, sweepLoop]
    by_cases hc : remote.contains m = true
    · simp only [hc, if_true]
      exact ih n post db e hrest hnc hf hm
    · simp only [hc, Bool.false_eq_true, if_false]
      cases hfm : fetchIssue m with
      | ok j => exact ih n post _ e hrest hnc hf hm
      | error e2 =>
        have hmiss : is_missing_resource e2 = true := by
          rcases hm1 with h | ⟨j, hj⟩ | ⟨e3, he3, hmi⟩
          · exact absurd h hc
          · rw [hfm] at hj; cases hj
          · rw [hfm] at he3
            have : e2 = e3 := Except.error.inj he3
            rw [this]; exact hmi
        simp only [hmiss, if_true]
        exact ih n post _ e hrest hnc hf hm

/-- C3: during a sweep, a locally-open issue number absent from the
remote open set is handled by a single-issue fetch: success rewrites the
row's state and closed_at from the payload; a response with status 404
or 410 marks it deleted with deleted_at = now; any other error aborts
the whole sweep, returning that error with the issues after it
unprocessed (the result does not depend on them). -/
theorem c3_sweep_reconciliation (repo : String) (now : Nat)
    (fetchIssue : Int → Except GhError IssueItem)
    (pages : List (Page IssueItem)) (db : Db) (remote : List Int)
    (hremote : collectOpenNumbers pages [] = Except.ok remote)
    (hnodup : (localOpenNumbers repo db).Nodup) :
    (∀ db', sweep_repo repo now fetchIssue pages db = (db', none) →
      ∀ n ∈ localOpenNumbers repo db, remote.contains n = false →
        (∀ j, fetchIssue n = Except.ok j →
          ∀ r ∈ db'.issues, r.repo = repo → r.number = n →
            r.state = j.state.getD "closed" ∧ r.closed_at = j.closed_at) ∧
        (∀ e, fetchIssue n = Except.error e → is_missing_resource e = true →
          ∀ r ∈ db'.issues, r.repo = repo → r.number = n →
            r.state = "deleted" ∧ r.deleted_at = some now)) ∧
    (∀ (pre : List Int) (n : Int) (post : List Int) (e : GhError),
      localOpenNumbers repo db = pre ++ n :: post →
      (∀ m ∈ pre, remote.contains m = true ∨ (∃ j, fetchIssue m = Except.ok j) ∨
         (∃ e2, fetchIssue m = Except.error e2 ∧ is_missing_resource e2 = true)) →
      remote.contains n = false → fetchIssue n = Except.error e →
      is_missing_resource e = false →
      sweep_repo repo now fetchIssue pages db =
        ((sweepLoop repo now fetchIssue remote pre db).1, some e)) := by
  constructor
  · intro db' hrun n hn hnc
    unfold sweep_repo at hrun
    rw [hremote] at hrun
    exact sweepLoop_result repo now fetchIssue remote (localOpenNumbers repo db)
      db db' hnodup hrun n hn hnc
  · intro pre n post e hdecomp hpre hnc hf hm
    unfold sweep_repo
    rw [hremote, hdecomp]
    exact sweepLoop_abort repo now fetchIssue remote pre n post db e hpre hnc hf hm

/-- C3 witness: on a sweep of two locally-open issues against an empty
remote open set, the row answered with a closed payload is rewritten to
closed with its payload closed_at, the row answered 410 is marked
deleted at the sweep time, and under an always-failing fetch the sweep
aborts with that error before processing anything. -/
theorem c3_sweep_reconciliation_witness :
    (c3ClosedRow.state = "closed" ∧ c3ClosedRow.closed_at = some 70) ∧
    (c3DeletedRow.state = "deleted" ∧ c3DeletedRow.deleted_at = some 9) ∧
    sweep_repo "r" 9 sweepFetchBoom [Except.ok []] sweepDb =
      (sweepDb, some (GhError.other "boom")) := by
  have h := c3_sweep_reconciliation "r" 9 sweepFetchMixed [Except.ok []] sweepDb []
    rfl (by decide)
  have hok := (h.1 (sweep_repo "r" 9 sweepFetchMixed [Except.ok []] sweepDb).1 rfl
    1 (by decide) (by decide)).1 closedIssueItem rfl c3ClosedRow (by decide) rfl rfl
  have hdel := (h.1 (sweep_repo "r" 9 sweepFetchMixed [Except.ok []] sweepDb).1 rfl
    2 (by decide) (by decide)).2 (GhError.github 410 "Gone") rfl (by decide)
    c3DeletedRow (by decide) rfl rfl
  have h2 := c3_sweep_reconciliation "r" 9 sweepFetchBoom [Except.ok []] sweepDb []
    rfl (by decide)
  have habort := h2.2 [] 1 [2] (GhError.other "boom") (by decide)
    (by intro m hm; cases hm) (by decide) rfl (by decide)
  exact ⟨hok, hdel, habort⟩

theorem upsertCommit_append (t : List CommitRow) (r : CommitRow)
    (h : t.any (fun x => x.sha == r.sha) = false) :
    upsertCommit t r = t ++ [r] := by
  unfold upsertCommit
  rw [if_neg]
  rw [h]
  exact Bool.false_ne_true

theorem processShas_spec (repo : String) (details : String → Except GhError CommitDetail) :
    ∀ (shas : List String) (db : Db) (log : List String) (db2 : Db) (log2 : List String)
      (e : Option GhError),
      processShas repo details shas db log = ((db2, log2), e) →
      ∃ newShas, log2 = log ++ newShas ∧
        (∀ s ∈ newShas, db.commits.any (fun c => c.sha == s) = false) ∧
        newShas.Nodup ∧
        (∀ s, db.commits.any (fun c => c.sha == s) = true →
          db2.commits.filter (fun c => c.sha == s) = db.commits.filter (fun c => c.sha == s) ∧
          db2.commits.any (fun c => c.sha == s) = true) ∧
        (e = none → ∀ s ∈ newShas, db2.commits.any (fun c => c.sha == s) = true) := by
  intro shas
  induction shas with
  | nil =>
    intro db log db2 log2 e h
    simp only [processShas, Prod.mk.injEq] at h
    obtain ⟨⟨h1, h2⟩, h3⟩ := h
    subst h1; subst h2; subst h3
    exact ⟨[], by simp, by simp, List.nodup_nil, fun s hs => ⟨rfl, hs⟩, by simp⟩
  | cons sha rest ih =>
    intro db log db2 log2 e h
    simp only [processShas] at h
    by_cases hex : db.commits.any (fun c => c.sha == sha) = true
    · rw [if_pos hex] at h
      exact ih db log db2 log2 e h
    · rw [if_neg (by rw [Bool.not_eq_true] at hex ⊢; exact hex)] at h
      rw [Bool.not_eq_true] at hex
      cases hd : details sha with
      | error e0 =>
        rw [hd] at h
        simp only [Prod.mk.injEq] at h
        obtain ⟨⟨h1, h2⟩, h3⟩ := h
        subst h1; subst h2
        refine ⟨[sha], rfl, ?_, by simp, fun s hs => ⟨rfl, hs⟩, ?_⟩
        · intro s hs
          rw [List.mem_singleton] at hs
          subst hs
          exact hex
        · intro hnone
          rw [← h3] at hnone
          cases hnone
      | ok d =>
        rw [hd] at h
        have hup : upsertCommit db.commits (commitRowOf repo sha d) =
            db.commits ++ [commitRowOf repo sha d] :=
          upsertCommit_append db.commits (commitRowOf repo sha d) hex
        obtain ⟨ns2, hlog, hns, hnodup, hpres, hfin⟩ :=
          ih { db with commits := upsertCommit db.commits (commitRowOf repo sha d) }
            (log ++ [sha]) db2 log2 e h
        have hanysha : ({ db with commits := upsertCommit db.commits (commitRowOf repo sha d) }).commits.any
            (fun c => c.sha == sha) = true := by
          simp only [hup, List.any_append]
          simp [commitRowOf]
        have hother : ∀ s, db.commits.any (fun c => c.sha == s) = true →
            ({ db with commits := upsertCommit db.commits (commitRowOf repo sha d) }).commits.filter
              (fun c => c.sha == s) = db.commits.filter (fun c => c.sha == s) ∧
            ({ db with commits := upsertCommit db.commits (commitRowOf repo sha d) }).commits.any
              (fun c => c.sha == s) = true := by
          intro s hs
          have hne : ¬ sha = s := by
            intro hc
            subst hc
            rw [hs] at hex
            cases hex
          constructor
          · simp only [hup, List.filter_append]
            have : ((commitRowOf repo sha d).sha == s) = false := by
              simp only [commitRowOf]
              exact beq_eq_false_iff_ne.mpr hne
            simp [this]
          · simp only [hup, List.any_append, hs]
            simp
        refine ⟨sha :: ns2, ?_, ?_, ?_, ?_, ?_⟩
        · rw [hlog, List.append_assoc]
          rfl
        · intro s hs
          rcases List.mem_cons.mp hs with rfl | hs2
          · exact hex
          · by_cases hdb : db.commits.any (fun c => c.sha == s) = true
            · exfalso
              have := (hother s hdb).2
              rw [hns s hs2] at this
              cases this
            · rw [Bool.not_eq_true] at hdb
              exact hdb
        · rw [List.nodup_cons]
          refine ⟨?_, hnodup⟩
          intro hsha
          have := hns sha hsha
          rw [hanysha] at this
          cases this
        · intro s hs
          obtain ⟨hf, ha⟩ := hother s hs
          obtain ⟨hf2, ha2⟩ := hpres s ha
          exact ⟨by rw [hf2, hf], ha2⟩
        · intro hnone s hs
          rcases List.mem_cons.mp hs with rfl | hs2
          · exact (hpres s hanysha).2
          · exact hfin hnone s hs2

theorem sync_commits_spec (repo : String) (details : String → Except GhError CommitDetail) :
    ∀ (pages : List (Page CommitListItem)) (db : Db) (log : List String) (db2 : Db)
      (log2 : List String) (e : Option GhError),
      sync_commits repo details pages db log = ((db2, log2), e) →
      ∃ newShas, log2 = log ++ newShas ∧
        (∀ s ∈ newShas, db.commits.any (fun c => c.sha == s) = false) ∧
        newShas.Nodup ∧
        (∀ s, db.commits.any (fun c => c.sha == s) = true →
          db2.commits.filter (fun c => c.sha == s) = db.commits.filter (fun c => c.sha == s) ∧
          db2.commits.any (fun c => c.sha == s) = true) := by
  intro pages
  induction pages with
  | nil =>
    intro db log db2 log2 e h
    simp only [sync_commits, Prod.mk.injEq] at h
    obtain ⟨⟨h1, h2⟩, h3⟩ := h
    subst h1; subst h2
    exact ⟨[], by simp, by simp, List.nodup_nil, fun s hs => ⟨rfl, hs⟩⟩
  | cons p rest ih =>
    intro db log db2 log2 e h
    cases p with
    | error e0 =>
      simp only [sync_commits, Prod.mk.injEq] at h
      obtain ⟨⟨h1, h2⟩, h3⟩ := h
      subst h1; subst h2
      exact ⟨[], by simp, by simp, List.nodup_nil, fun s hs => ⟨rfl, hs⟩⟩
    | ok items =>
      simp only [sync_commits] at h
      cases hp : processShas repo details (pageShas items) db log with
      | mk r oe =>
        obtain ⟨dbMid, logMid⟩ := r
        obtain ⟨ns1, hlog1, hns1, hnodup1, hpres1, hfin1⟩ :=
          processShas_spec repo details (pageShas items) db log dbMid logMid oe hp
        rw [hp] at h
        cases oe with
        | some e0 =>
          simp only [Prod.mk.injEq] at h
          obtain ⟨⟨h1, h2⟩, h3⟩ := h
          subst h1; subst h2
          exact ⟨ns1, hlog1, hns1, hnodup1, fun s hs => (hpres1 s hs).imp id (fun x => x)⟩
        | none =>
          obtain ⟨ns2, hlog2, hns2, hnodup2, hpres2⟩ :=
            ih dbMid logMid db2 log2 e h
          have hfin1n := hfin1 rfl
          refine ⟨ns1 ++ ns2, ?_, ?_, ?_, ?_⟩
          · rw [hlog2, hlog1, List.append_assoc]
          · intro s hs
            rcases List.mem_append.mp hs with hs1 | hs2
            · exact hns1 s hs1
            · by_cases hdb : db.commits.any (fun c => c.sha == s) = true
              · exfalso
                have := (hpres1 s hdb).2
                rw [hns2 s hs2] at this
                cases this
              · rw [Bool.not_eq_true] at hdb
                exact hdb
          · rw [List.nodup_append]
            refine ⟨hnodup1, hnodup2, ?_⟩
            intro s hs1 hs2
            have h1 := hfin1n s hs1
            have h2 := hns2 s hs2
            rw [h1] at h2
            cases h2
          · intro s hs
            obtain ⟨hf1, ha1⟩ := hpres1 s hs
            obtain ⟨hf2, ha2⟩ := hpres2 s ha1
            exact ⟨by rw [hf2, hf1], ha2⟩

/-- C9: during sync_commits no sha that already has a commits row is
detail-fetched, and its stored rows are unchanged; detail calls happen
only for shas not present locally, and never twice for the same sha even
when it reappears on the same or a later page. -/
theorem c9_commit_presence_check (repo : String)
    (details : String → Except GhError CommitDetail)
    (pages : List (Page CommitListItem)) (db db2 : Db) (log : List String)
    (e : Option GhError)
    (h : sync_commits repo details pages db [] = ((db2, log), e)) :
    log.Nodup ∧
    ∀ s, db.commits.any (fun c => c.sha == s) = true →
      ¬ s ∈ log ∧
      db2.commits.filter (fun c => c.sha == s) = db.commits.filter (fun c => c.sha == s) := by
  obtain ⟨newShas, hlog, hns, hnodup, hpres⟩ :=
    sync_commits_spec repo details pages db [] db2 log e h
  rw [List.nil_append] at hlog
  subst hlog
  refine ⟨hnodup, ?_⟩
  intro s hs
  refine ⟨?_, (hpres s hs).1⟩
  intro hmem
  have := hns s hmem
  rw [hs] at this
  cases this

/-- C9 witness: with commit "a" already mirrored and pages listing "a"
twice and "b" once, only "b" is detail-fetched (once), and the stored
row for "a" is unchanged. -/
theorem c9_commit_presence_check_witness :
    ((sync_commits "r" commitDetailsB commitPagesAB commitsDb []).1.2).Nodup ∧
    (¬ "a" ∈ (sync_commits "r" commitDetailsB commitPagesAB commitsDb []).1.2 ∧
     ((sync_commits "r" commitDetailsB commitPagesAB commitsDb []).1.1).commits.filter
       (fun c => c.sha == "a") = commitsDb.commits.filter (fun c => c.sha == "a")) := by
  have h := c9_commit_presence_check "r" commitDetailsB commitPagesAB commitsDb
    (sync_commits "r" commitDetailsB commitPagesAB commitsDb []).1.1
    (sync_commits "r" commitDetailsB commitPagesAB commitsDb []).1.2
    (sync_commits "r" commitDetailsB commitPagesAB commitsDb []).2 rfl
  exact ⟨h.1, h.2 "a" (by decide)⟩

theorem commentActsEq (repo : String) (num : Int) (author : String) (c : Nat)
    (T : List CommentRow) :
    (T.map (fun x => (x.repo, x.ref_number, x.author, x.created_at))).filterMap (fun a =>
        match a.2.2.2 with
        | some t => if a.1 == repo && a.2.1 == num && decide (c < t) && !(a.2.2.1 == author)
                    then some t else none
        | none => none) =
      (T.filterMap (fun x =>
        if x.repo == repo && x.ref_number == num && !(x.author == author)
        then x.created_at else none)).filter (fun t => decide (c < t)) := by
  rw [List.filterMap_map, List.filter_filterMap]
  apply List.filterMap_congr
  intro x _
  simp only [Function.comp]
  cases hcr : x.created_at with
  | none =>
    cases hA : (x.repo == repo) <;> cases hB : (x.ref_number == num) <;>
      cases hD : (x.author == author) <;> simp [hcr, hA, hB, hD, Option.filter]
  | some t =>
    cases hA : (x.repo == repo) <;> cases hB : (x.ref_number == num) <;>
      cases hD : (x.author == author) <;> cases hL : decide (c < t) <;>
      simp [hcr, hA, hB, hD, hL, Option.filter]

theorem reviewActsEq (repo : String) (num : Int) (author : String) (c : Nat)
    (T : List ReviewRow) :
    (T.map (fun v => (v.repo, v.pr_number, v.author, v.submitted_at))).filterMap (fun a =>
        match a.2.2.2 with
        | some t => if a.1 == repo && a.2.1 == num && decide (c < t) && !(a.2.2.1 == author)
                    then some t else none
        | none => none) =
      (T.filterMap (fun v =>
        if v.repo == repo && v.pr_number == num && !(v.author == author)
        then v.submitted_at else none)).filter (fun t => decide (c < t)) := by
  rw [List.filterMap_map, List.filter_filterMap]
  apply List.filterMap_congr
  intro x _
  simp only [Function.comp]
  cases hcr : x.submitted_at with
  | none =>
    cases hA : (x.repo == repo) <;> cases hB : (x.pr_number == num) <;>
      cases hD : (x.author == author) <;> simp [hcr, hA, hB, hD, Option.filter]
  | some t =>
    cases hA : (x.repo == repo) <;> cases hB : (x.pr_number == num) <;>
      cases hD : (x.author == author) <;> cases hL : decide (c < t) <;>
      simp [hcr, hA, hB, hD, hL, Option.filter]

theorem specFirstResponseTs_eq_min (db : Db) (repo : String) (num : Int)
    (author : String) (c : Nat) :
    specFirstResponseTs db repo num author c =
      ((activitiesOf db).filterMap (fun a =>
        match a.2.2.2 with
        | some t => if a.1 == repo && a.2.1 == num && decide (c < t) && !(a.2.2.1 == author)
                    then some t else none
        | none => none)).min? := by
  unfold specFirstResponseTs activitiesOf
  rw [List.filterMap_append, List.filterMap_append]
  rw [commentActsEq, reviewActsEq, commentActsEq]
  simp only [List.filter_append]

/-- C8: per-item time-to-first-response.  The temp table holds, for an
issue with a qualifying response, the elapsed fractional hours from
creation to the earliest comment/review/review-comment by a different
author strictly after creation, keyed by the creation day; conversely
every temp row arises that way; and on the specification's scenario
(same-author comment at T+1h, other-author comment at T+5h) the value
aggregated for the creation day is 5 hours. -/
theorem c8_first_response (db : Db) :
    (∀ i ∈ db.issues, ∀ c t, i.created_at = some c →
       specFirstResponseTs db i.repo i.number i.author c = some t →
       ({ repo := i.repo, created_date := dayOfSec c,
          hours := ((t : ℚ) - (c : ℚ)) / 3600 } : RespRow) ∈ tempResponseTimes db) ∧
    (∀ q ∈ tempResponseTimes db, ∃ p ∈ parentsOf db, ∃ c t,
       p.2.2.2 = some c ∧ specFirstResponseTs db p.1 p.2.1 p.2.2.1 c = some t ∧
       q = { repo := p.1, created_date := dayOfSec c,
             hours := ((t : ℚ) - (c : ℚ)) / 3600 }) ∧
    tempResponseTimes respScenarioDb = [{ repo := "r", created_date := 10, hours := 5 }] ∧
    sqlAvg (((tempResponseTimes respScenarioDb).filter
      (fun q => q.repo == "r" && q.created_date == 10)).map (fun q => q.hours)) = some 5 := by
  have htemp : tempResponseTimes respScenarioDb =
      [{ repo := "r", created_date := 10, hours := 5 }] := by
    simp only [tempResponseTimes, parentsOf, activitiesOf, respScenarioDb, emptyDb,
      sampleIssueRow]
    norm_num +decide [List.filterMap, List.min?, dayOfSec]
  refine ⟨?_, ?_, htemp, ?_⟩
  case refine_3 =>
    rw [htemp]
    norm_num +decide [sqlAvg, List.filter, List.map, List.sum]
  · intro i hi c t hc hspec
    unfold tempResponseTimes
    apply List.mem_filterMap.mpr
    refine ⟨(i.repo, i.number, i.author, i.created_at), ?_, ?_⟩
    · unfold parentsOf
      exact List.mem_append_left _ (List.mem_map_of_mem _ hi)
    · dsimp only
      rw [hc]
      dsimp only
      rw [← specFirstResponseTs_eq_min db i.repo i.number i.author c, hspec]
      dsimp only
      have hr : ((t : ℚ) - (c : ℚ)) * 24 / 86400 = ((t : ℚ) - (c : ℚ)) / 3600 := by ring
      rw [hr]
  · intro q hq
    unfold tempResponseTimes at hq
    obtain ⟨p, hp, hF⟩ := List.mem_filterMap.mp hq
    refine ⟨p, hp, ?_⟩
    cases hcr : p.2.2.2 with
    | none =>
      simp only [hcr] at hF
      cases hF
    | some c =>
      simp only [hcr] at hF
      rw [← specFirstResponseTs_eq_min db p.1 p.2.1 p.2.2.1 c] at hF
      cases hspec : specFirstResponseTs db p.1 p.2.1 p.2.2.1 c with
      | none =>
        rw [hspec] at hF
        cases hF
      | some m =>
        rw [hspec] at hF
        simp only [Option.some.injEq] at hF
        refine ⟨c, m, rfl, hspec, ?_⟩
        rw [← hF]
        have hr : ((m : ℚ) - (c : ℚ)) * 24 / 86400 = ((m : ℚ) - (c : ℚ)) / 3600 := by ring
        rw [hr]

/-- C8 witness: in the specification's scenario the issue's first
qualifying response is bob's comment at T+5h, so the temp table contains
the 5-hour entry for the creation day. -/
theorem c8_first_response_witness :
    ({ repo := "r", created_date := dayOfSec 864000,
       hours := ((882000 : ℚ) - (864000 : ℚ)) / 3600 } : RespRow) ∈
      tempResponseTimes respScenarioDb :=
  (c8_first_response respScenarioDb).1 sampleIssueRow (by decide) 864000 882000 rfl
    (by decide)

theorem filter_mapUpdate_frame (d : Int) (P : Int → Bool) (hP : P d = false)
    (f : MetricRow → MetricRow) (hf : ∀ r, (f r).date = r.date)
    (l : List MetricRow) :
    (l.map (fun r => if r.date == d then f r else r)).filter (fun r => P r.date) =
      l.filter (fun r => P r.date) := by
  induction l with
  | nil => rfl
  | cons r rest ih =>
    simp only [List.map_cons, List.filter_cons]
    by_cases hc : (r.date == d) = true
    · have hd : r.date = d := by simpa using hc
      rw [if_pos hc]
      have h1 : P (f r).date = false := by rw [hf, hd, hP]
      have h2 : P r.date = false := by rw [hd, hP]
      rw [h1, h2, if_neg Bool.false_ne_true, if_neg Bool.false_ne_true]
      exact ih
    · rw [if_neg hc]
      rw [ih]

theorem filter_append_frame (P : Int → Bool) (l newRows : List MetricRow)
    (h : ∀ r ∈ newRows, P r.date = false) :
    (l ++ newRows).filter (fun r => P r.date) = l.filter (fun r => P r.date) := by
  rw [List.filter_append]
  have hnil : newRows.filter (fun r => P r.date) = [] := by
    rw [List.filter_eq_nil_iff]
    intro a ha
    rw [h a ha]
    exact Bool.false_ne_true
  rw [hnil, List.append_nil]

theorem mapUpdate_exists (d : Int) (f : MetricRow → MetricRow)
    (hf : ∀ r, (f r).date = r.date ∧ (f r).repo = r.repo) (l : List MetricRow)
    (d0 : Int) (rp : String) (h : ∃ r ∈ l, r.date = d0 ∧ r.repo = rp) :
    ∃ r ∈ l.map (fun r => if r.date == d then f r else r), r.date = d0 ∧ r.repo = rp := by
  obtain ⟨r, hr, hd0, hrp⟩ := h
  refine ⟨(fun r => if r.date == d then f r else r) r, List.mem_map_of_mem _ hr, ?_⟩
  dsimp only
  by_cases hc : (r.date == d) = true
  · rw [if_pos hc]
    exact ⟨(hf r).1.trans hd0, (hf r).2.trans hrp⟩
  · rw [if_neg hc]
    exact ⟨hd0, hrp⟩

theorem dayStatements_preserve (temp : List RespRow) :
    ∀ p ∈ dayStatements temp, ∀ (db : Db) (r : MetricRow),
      ((p.2) db r).date = r.date ∧ ((p.2) db r).repo = r.repo := by
  intro p hp db r
  simp only [dayStatements, List.mem_cons, List.not_mem_nil, or_false] at hp
  rcases hp with rfl | rfl | rfl | rfl | rfl | rfl | rfl | rfl | rfl | rfl | rfl | rfl
  all_goals exact ⟨rfl, rfl⟩

theorem dayStatements_cols (temp : List RespRow) :
    ∀ p ∈ dayStatements temp, ∀ c ∈ p.1, c ∈ metricUpdateColumns := by
  intro p hp
  simp only [dayStatements, List.mem_cons, List.not_mem_nil, or_false] at hp
  rcases hp with rfl | rfl | rfl | rfl | rfl | rfl | rfl | rfl | rfl | rfl | rfl | rfl
  all_goals dsimp only
  all_goals decide

theorem colsOk_none (schema cols : List String)
    (h : ∀ c ∈ cols, schema.contains c = true) :
    colsOk schema cols = none := by
  unfold colsOk
  cases hfind : cols.find? (fun c => !(schema.contains c)) with
  | none => rfl
  | some c =>
    exfalso
    have hc := List.find?_some hfind
    have hmem := List.mem_of_find?_eq_some hfind
    rw [h c hmem] at hc
    cases hc

theorem activeRepos_eq_of_rawTables {a b : Db} (h : rawTables a = rawTables b) :
    activeRepos a = activeRepos b := by
  have h1 : a.pullRequests = b.pullRequests := congrArg (fun t => t.2.1) h
  have h2 : a.issues = b.issues := congrArg (fun t => t.2.2.1) h
  have h3 : a.stargazers = b.stargazers := congrArg (fun t => t.2.2.2.2.2.2.1) h
  have h4 : a.commits = b.commits := congrArg (fun t => t.2.2.2.2.2.2.2.1) h
  unfold activeRepos
  rw [h1, h2, h3, h4]

theorem runUpdates_spec (d : Int) :
    ∀ (stmts : List (List String × (Db → MetricRow → MetricRow))) (db : Db),
      (∀ p ∈ stmts, ∀ c ∈ p.1, db.metricsSchema.contains c = true) →
      (∀ p ∈ stmts, ∀ (dbx : Db) (r : MetricRow),
        ((p.2) dbx r).date = r.date ∧ ((p.2) dbx r).repo = r.repo) →
      ∃ db2, runUpdates d stmts db = (db2, none) ∧
        db2.metricsSchema = db.metricsSchema ∧
        rawTables db2 = rawTables db ∧
        (∀ (P : Int → Bool), P d = false →
          db2.dailyMetrics.filter (fun r => P r.date) =
            db.dailyMetrics.filter (fun r => P r.date)) ∧
        (∀ d0 rp, (∃ r ∈ db.dailyMetrics, r.date = d0 ∧ r.repo = rp) →
          ∃ r ∈ db2.dailyMetrics, r.date = d0 ∧ r.repo = rp) ∧
        (∀ r2 ∈ db2.dailyMetrics, ∃ r ∈ db.dailyMetrics, r2.date = r.date) := by
  intro stmts
  induction stmts with
  | nil =>
    intro db _ _
    exact ⟨db, rfl, rfl, rfl, fun P _ => rfl, fun d0 rp h => h, fun r2 h => ⟨r2, h, rfl⟩⟩
  | cons p rest ih =>
    intro db hcols hpres
    obtain ⟨cols, f⟩ := p
    have hok : colsOk db.metricsSchema cols = none :=
      colsOk_none _ _ (hcols (cols, f) (List.mem_cons_self _ _))
    have hfpres := hpres (cols, f) (List.mem_cons_self _ _)
    set db1 : Db :=
      { db with dailyMetrics := db.dailyMetrics.map (fun r => if r.date == d then f db r else r) }
      with hdb1
    obtain ⟨db2, hrun, hschema, hraw, hframe, hcov, horig⟩ :=
      ih db1 (fun q hq => hcols q (List.mem_cons_of_mem _ hq))
        (fun q hq => hpres q (List.mem_cons_of_mem _ hq))
    refine ⟨db2, ?_, ?_, ?_, ?_, ?_, ?_⟩
    · simp only [runUpdates, hok]
      exact hrun
    · rw [hschema]
    · rw [hraw]
      rfl
    · intro P hP
      rw [hframe P hP]
      exact filter_mapUpdate_frame d P hP (f db) (fun r => (hfpres db r).1) db.dailyMetrics
    · intro d0 rp h
      exact hcov d0 rp (mapUpdate_exists d (f db) (fun r => hfpres db r) db.dailyMetrics d0 rp h)
    · intro r2 h2
      obtain ⟨r1, hr1, he⟩ := horig r2 h2
      rw [List.mem_map] at hr1
      obtain ⟨r0, hr0, hfr⟩ := hr1
      refine ⟨r0, hr0, ?_⟩
      rw [he, ← hfr]
      by_cases hc : (r0.date == d) = true
      · rw [if_pos hc]
        exact (hfpres db r0).1
      · rw [if_neg hc]

theorem insertMetricRows_spec (d : Int) (db : Db)
    (hd : db.metricsSchema.contains "date" = true)
    (hr : db.metricsSchema.contains "repo" = true) :
    ∃ db2, insertMetricRows d db = (db2, none) ∧
      db2.metricsSchema = db.metricsSchema ∧
      rawTables db2 = rawTables db ∧
      (∀ (P : Int → Bool), P d = false →
        db2.dailyMetrics.filter (fun r => P r.date) =
          db.dailyMetrics.filter (fun r => P r.date)) ∧
      (∀ rp ∈ activeRepos db, ∃ r ∈ db2.dailyMetrics, r.date = d ∧ r.repo = rp) ∧
      (∀ d0 rp, (∃ r ∈ db.dailyMetrics, r.date = d0 ∧ r.repo = rp) →
        ∃ r ∈ db2.dailyMetrics, r.date = d0 ∧ r.repo = rp) ∧
      (∀ r2 ∈ db2.dailyMetrics, (∃ r ∈ db.dailyMetrics, r2.date = r.date) ∨ r2.date = d) := by
  have hok : colsOk db.metricsSchema ["date", "repo"] = none := by
    apply colsOk_none
    intro c hc
    rcases List.mem_cons.mp hc with rfl | hc2
    · exact hd
    · rw [List.mem_singleton] at hc2
      subst hc2
      exact hr
  set newRows : List MetricRow := (activeRepos db).filterMap (fun rp =>
    if db.dailyMetrics.any (fun r => r.date == d && r.repo == rp) then none
    else some (mkMetricRow db.metricsSchema d rp)) with hnew
  have hnewdate : ∀ r ∈ newRows, r.date = d := by
    intro r hmem
    rw [hnew, List.mem_filterMap] at hmem
    obtain ⟨rp, _, hsome⟩ := hmem
    by_cases hc : db.dailyMetrics.any (fun r => r.date == d && r.repo == rp) = true
    · rw [if_pos hc] at hsome
      cases hsome
    · rw [if_neg hc] at hsome
      have h2 : mkMetricRow db.metricsSchema d rp = r := Option.some.inj hsome
      rw [← h2]
      rfl
  refine ⟨{ db with dailyMetrics := db.dailyMetrics ++ newRows }, ?_, rfl, rfl, ?_, ?_, ?_, ?_⟩
  · simp only [insertMetricRows, hok]
  · intro P hP
    exact filter_append_frame P db.dailyMetrics newRows
      (fun r hmem => by rw [hnewdate r hmem, hP])
  · intro rp hrp
    by_cases hc : db.dailyMetrics.any (fun r => r.date == d && r.repo == rp) = true
    · rw [List.any_eq_true] at hc
      obtain ⟨r, hrm, hcond⟩ := hc
      rw [Bool.and_eq_true, beq_iff_eq, beq_iff_eq] at hcond
      exact ⟨r, List.mem_append_left _ hrm, hcond.1, hcond.2⟩
    · refine ⟨mkMetricRow db.metricsSchema d rp, ?_, rfl, rfl⟩
      apply List.mem_append_right
      rw [hnew, List.mem_filterMap]
      exact ⟨rp, hrp, by rw [if_neg hc]⟩
  · intro d0 rp h
    obtain ⟨r, hrm, hd0, hrp⟩ := h
    exact ⟨r, List.mem_append_left _ hrm, hd0, hrp⟩
  · intro r2 h2
    rcases List.mem_append.mp h2 with hl | hrt
    · exact Or.inl ⟨r2, hl, rfl⟩
    · exact Or.inr (hnewdate r2 hrt)

theorem metricDayStep_spec (temp : List RespRow) (d : Int) (db : Db)
    (hschema : ∀ c ∈ metricUpdateColumns, db.metricsSchema.contains c = true) :
    ∃ db2, metricDayStep temp d db = (db2, none) ∧
      db2.metricsSchema = db.metricsSchema ∧
      rawTables db2 = rawTables db ∧
      (∀ (P : Int → Bool), P d = false →
        db2.dailyMetrics.filter (fun r => P r.date) =
          db.dailyMetrics.filter (fun r => P r.date)) ∧
      (∀ rp ∈ activeRepos db, ∃ r ∈ db2.dailyMetrics, r.date = d ∧ r.repo = rp) ∧
      (∀ d0 rp, (∃ r ∈ db.dailyMetrics, r.date = d0 ∧ r.repo = rp) →
        ∃ r ∈ db2.dailyMetrics, r.date = d0 ∧ r.repo = rp) ∧
      (∀ r2 ∈ db2.dailyMetrics, (∃ r ∈ db.dailyMetrics, r2.date = r.date) ∨ r2.date = d) := by
  obtain ⟨dbI, hins, hIschema, hIraw, hIframe, hIcov, hIpres, hIorig⟩ :=
    insertMetricRows_spec d db (hschema "date" (by decide)) (hschema "repo" (by decide))
  obtain ⟨db2, hupd, hUschema, hUraw, hUframe, hUcov, hUorig⟩ :=
    runUpdates_spec d (dayStatements temp) dbI
      (fun p hp c hc => by
        rw [hIschema]
        exact hschema c (dayStatements_cols temp p hp c hc))
      (dayStatements_preserve temp)
  refine ⟨db2, ?_, ?_, ?_, ?_, ?_, ?_, ?_⟩
  · unfold metricDayStep
    rw [hins]
    simp only [andThenS]
    exact hupd
  · rw [hUschema, hIschema]
  · rw [hUraw, hIraw]
  · intro P hP
    rw [hUframe P hP, hIframe P hP]
  · intro rp hrp
    exact hUcov d rp (hIcov rp hrp)
  · intro d0 rp h
    exact hUcov d0 rp (hIpres d0 rp h)
  · intro r2 h2
    obtain ⟨r1, hr1, he⟩ := hUorig r2 h2
    rcases hIorig r1 hr1 with ⟨r0, hr0, he0⟩ | hd1
    · exact Or.inl ⟨r0, hr0, he.trans he0⟩
    · exact Or.inr (he.trans hd1)

theorem runDays_spec (temp : List RespRow) :
    ∀ (days : List Int) (db : Db),
      (∀ c ∈ metricUpdateColumns, db.metricsSchema.contains c = true) →
      ∃ db2, runDays temp days db = (db2, none) ∧
        db2.metricsSchema = db.metricsSchema ∧
        rawTables db2 = rawTables db ∧
        (∀ (P : Int → Bool), (∀ d ∈ days, P d = false) →
          db2.dailyMetrics.filter (fun r => P r.date) =
            db.dailyMetrics.filter (fun r => P r.date)) ∧
        (∀ d ∈ days, ∀ rp ∈ activeRepos db, ∃ r ∈ db2.dailyMetrics, r.date = d ∧ r.repo = rp) ∧
        (∀ d0 rp, (∃ r ∈ db.dailyMetrics, r.date = d0 ∧ r.repo = rp) →
          ∃ r ∈ db2.dailyMetrics, r.date = d0 ∧ r.repo = rp) ∧
        (∀ r2 ∈ db2.dailyMetrics, (∃ r ∈ db.dailyMetrics, r2.date = r.date) ∨ r2.date ∈ days) := by
  intro days
  induction days with
  | nil =>
    intro db _
    exact ⟨db, rfl, rfl, rfl, fun P _ => rfl, fun d hd => absurd hd (List.not_mem_nil d),
      fun d0 rp h => h, fun r2 h => Or.inl ⟨r2, h, rfl⟩⟩
  | cons d rest ih =>
    intro db hschema
    obtain ⟨db1, hstep, h1schema, h1raw, h1frame, h1cov, h1pres, h1orig⟩ :=
      metricDayStep_spec temp d db hschema
    obtain ⟨db2, hrun, h2schema, h2raw, h2frame, h2cov, h2pres, h2orig⟩ :=
      ih db1 (fun c hc => by rw [h1schema]; exact hschema c hc)
    have hact : activeRepos db1 = activeRepos db := activeRepos_eq_of_rawTables h1raw
    refine ⟨db2, ?_, ?_, ?_, ?_, ?_, ?_, ?_⟩
    · simp only [runDays, hstep, andThenS]
      exact hrun
    · rw [h2schema, h1schema]
    · rw [h2raw, h1raw]
    · intro P hP
      rw [h2frame P (fun x hx => hP x (List.mem_cons_of_mem _ hx)),
        h1frame P (hP d (List.mem_cons_self _ _))]
    · intro d0 hd0 rp hrp
      rcases List.mem_cons.mp hd0 with rfl | hd0rest
      · exact h2pres d0 rp (h1cov rp hrp)
      · exact h2cov d0 hd0rest rp (by rw [hact]; exact hrp)
    · intro d0 rp h
      exact h2pres d0 rp (h1pres d0 rp h)
    · intro r2 h2m
      rcases h2orig r2 h2m with ⟨r1, hr1, he⟩ | hdm
      · rcases h1orig r1 hr1 with ⟨r0, hr0, he0⟩ | hd1
        · exact Or.inl ⟨r0, hr0, he.trans he0⟩
        · exact Or.inr (by rw [he, hd1]; exact List.mem_cons_self _ _)
      · exact Or.inr (List.mem_cons_of_mem _ hdm)

/-- C5: the dirty window.  With existing metrics through day D, a
recompute succeeds (schema permitting), touches exactly the days from
D−3 through today: rows with earlier dates are unchanged as stored, a
row exists afterwards for every (day in window, active repo), no row
lies beyond today, and with no existing metrics the window starts at the
fixed 2010 epoch. -/
theorem c5_dirty_window (db : Db) (now : Nat) (D : Int)
    (hmax : (db.dailyMetrics.map (fun r => r.date)).max? = some D)
    (hclock : D * 86400 ≤ (now : Int))
    (hschema : ∀ c ∈ metricUpdateColumns, db.metricsSchema.contains c = true) :
    ∃ db2, compute_metrics db now = (db2, none) ∧
      db2.dailyMetrics.filter (fun r => decide (r.date < D - 3)) =
        db.dailyMetrics.filter (fun r => decide (r.date < D - 3)) ∧
      (∀ d : Int, D - 3 ≤ d → d ≤ dayOfSec now →
        ∀ rp ∈ activeRepos db, ∃ r ∈ db2.dailyMetrics, r.date = d ∧ r.repo = rp) ∧
      (∀ r ∈ db2.dailyMetrics, r.date ≤ dayOfSec now) ∧
      (∀ dbE : Db, dbE.dailyMetrics = [] → computeStartSec dbE = (metricsEpochSec : Int)) := by
  have hstart : computeStartSec db = (D - 3) * 86400 := by
    unfold computeStartSec
    rw [hmax]
    ring
  have hsd : Int.fdiv ((D - 3) * 86400) 86400 = D - 3 := by
    rw [Int.fdiv_eq_ediv _ (by norm_num)]
    exact Int.mul_ediv_cancel _ (by norm_num)
  have h0 : (0 : Int) ≤ (now : Int) - (D - 3) * 86400 := by nlinarith
  set numDays : Int := Int.tdiv ((now : Int) - (D - 3) * 86400) 86400 with hndDef
  have hnd : numDays = ((now : Int) - (D - 3) * 86400) / 86400 :=
    Int.tdiv_eq_ediv h0 (by norm_num)
  have hnd0 : 0 ≤ numDays := by
    rw [hnd]
    exact Int.ediv_nonneg h0 (by norm_num)
  have hdayfn : ∀ i : Nat, Int.fdiv ((D - 3) * 86400 + (i : Int) * 86400) 86400 = D - 3 + i := by
    intro i
    rw [Int.fdiv_eq_ediv _ (by norm_num)]
    have he : (D - 3) * 86400 + (i : Int) * 86400 = (D - 3 + i) * 86400 := by ring
    rw [he]
    exact Int.mul_ediv_cancel _ (by norm_num)
  have hofnat : (dayOfSec now : Int) = (now : Int) / 86400 := by
    unfold dayOfSec
    rw [Int.ofNat_tdiv]
    exact Int.tdiv_eq_ediv (Int.natCast_nonneg now) (by norm_num)
  have htop : D - 3 + numDays = dayOfSec now := by
    rw [hnd, hofnat]
    omega
  have hmemdays : ∀ d : Int,
      d ∈ metricsDays ((D - 3) * 86400) numDays ↔ D - 3 ≤ d ∧ d ≤ D - 3 + numDays := by
    intro d
    unfold metricsDays
    rw [if_neg (not_lt.mpr hnd0)]
    rw [List.mem_map]
    constructor
    · rintro ⟨i, hi, heq⟩
      rw [List.mem_range] at hi
      rw [hdayfn i] at heq
      have hi2 : (i : Int) ≤ numDays := by
        have := Int.toNat_of_nonneg hnd0
        omega
      omega
    · rintro ⟨h1, h2⟩
      refine ⟨(d - (D - 3)).toNat, ?_, ?_⟩
      · rw [List.mem_range]
        have := Int.toNat_of_nonneg hnd0
        omega
      · rw [hdayfn]
        have : ((d - (D - 3)).toNat : Int) = d - (D - 3) := Int.toNat_of_nonneg (by omega)
        omega
  set db1 : Db :=
    { db with dailyMetrics := db.dailyMetrics.filter (fun r => decide (r.date < D - 3)) }
    with hdb1
  have hcm : compute_metrics db now =
      runDays (tempResponseTimes db1) (metricsDays ((D - 3) * 86400) numDays) db1 := by
    simp only [compute_metrics]
    rw [hstart, hsd]
  obtain ⟨db2, hrun, h2schema, h2raw, h2frame, h2cov, h2pres, h2orig⟩ :=
    runDays_spec (tempResponseTimes db1) (metricsDays ((D - 3) * 86400) numDays) db1 hschema
  have hact : activeRepos db1 = activeRepos db := rfl
  have hDtop : D ≤ dayOfSec now := by
    rw [hofnat]
    omega
  refine ⟨db2, ?_, ?_, ?_, ?_, ?_⟩
  · rw [hcm, hrun]
  · have hframe := h2frame (fun x => decide (x < D - 3)) ?_
    · rw [hframe]
      show (db.dailyMetrics.filter (fun r => decide (r.date < D - 3))).filter
        (fun r => decide (r.date < D - 3)) = _
      rw [List.filter_filter]
      have hfeq : (fun (r : MetricRow) => decide (r.date < D - 3) && decide (r.date < D - 3)) =
          (fun r => decide (r.date < D - 3)) := funext fun r => Bool.and_self _
      rw [hfeq]
    · intro x hx
      rw [hmemdays x] at hx
      exact decide_eq_false (by omega)
  · intro d hd1 hd2 rp hrp
    refine h2cov d ?_ rp (by rw [hact]; exact hrp)
    rw [hmemdays d]
    omega
  · intro r2 h2m
    rcases h2orig r2 h2m with ⟨r1, hr1, he⟩ | hdm
    · rw [hdb1] at hr1
      simp only [List.mem_filter, decide_eq_true_eq] at hr1
      omega
    · rw [hmemdays r2.date] at hdm
      omega
  · intro dbE hE
    unfold computeStartSec
    rw [hE]
    rfl

/-- C5 witness: with metrics through day 14613 and a full schema, a
recompute at a clock inside day 14613 succeeds, leaves the day-14603 row
region untouched, and produces a row for day 14610 (the window start)
for the active repository. -/
theorem c5_dirty_window_witness :
    ∃ db2, compute_metrics fullSchemaDb (14613 * 86400) = (db2, none) ∧
      db2.dailyMetrics.filter (fun r => decide (r.date < (14613 : Int) - 3)) =
        fullSchemaDb.dailyMetrics.filter (fun r => decide (r.date < (14613 : Int) - 3)) ∧
      (∃ r ∈ db2.dailyMetrics, r.date = 14610 ∧ r.repo = "r") := by
  obtain ⟨db2, h1, h2, h3, _, _⟩ :=
    c5_dirty_window fullSchemaDb (14613 * 86400) 14613 (by decide) (by norm_num)
      (by decide)
  refine ⟨db2, h1, h2, ?_⟩
  refine h3 14610 (by norm_num) ?_ "r" (by decide)
  show (14610 : Int) ≤ ((14613 * 86400 / 86400 : Nat) : Int)
  norm_num

end StrandsMetrics
